import Mathlib

/-!
Verification development for the Trident workflow runtime
(`src/runtime/trident`): a shallow embedding, in Lean 4, of the data
model and of the operations of `template.py`, `dag.py`, `executor.py`
and `artifacts.py`, together with theorems settling the specification
claims about them.

Modelling conventions:
* Python values exchanged between nodes are modelled by `PyVal`
  (JSON-like values; `PyVal.none` is Python `None`).
* Python dicts are modelled as insertion-ordered association lists
  (`PyDict`), with `dset` mirroring `d[k] = v` (replace in place,
  else append) and `dget` mirroring `d.get(k)`.
* Wall-clock timestamp strings (`_now_iso()`) and file-system side
  effects are elided; fallible external collaborators (the condition
  evaluator, model providers, tool callables, sub-workflow runs) are
  universally quantified oracles.
-/

/-- Python/JSON values flowing between nodes.  `int`/`float` are kept
separate, as in Python; floats are modelled as rationals. -/
inductive PyVal where
  | none
  | bool (b : Bool)
  | int (n : Int)
  | float (q : Rat)
  | str (s : String)
  | list (xs : List PyVal)
  | dict (entries : List (String × PyVal))

/-- Python `value is None` (an identity test against the `None`
singleton, hence a constructor test here). -/
def PyVal.isNone : PyVal → Bool
  | .none => true
  | _ => false

/-- A Python dict (insertion-ordered association list). -/
abbrev PyDict := List (String × PyVal)

/-- `d.get(k)`: first binding of `k`, if any. -/
def dget (d : PyDict) (k : String) : Option PyVal :=
  match d with
  | [] => Option.none
  | (k', v) :: rest => if k' = k then some v else dget rest k

/-- `d.get(k, default)`. -/
def dgetD (d : PyDict) (k : String) (default : PyVal) : PyVal :=
  (dget d k).getD default

/-- `k in d`. -/
def hasKey (d : PyDict) (k : String) : Bool :=
  match d with
  | [] => false
  | (k', _) :: rest => k' = k || hasKey rest k

/-- `d[k] = v`: replace the binding in place if the key exists
(keeping its position, as Python dicts do), else append. -/
def dset (d : PyDict) (k : String) (v : PyVal) : PyDict :=
  match d with
  | [] => [(k, v)]
  | (k', v') :: rest => if k' = k then (k, v) :: rest else (k', v') :: dset rest k v

/-- A Python dict display `{a: x, b: y, ...}` built from a pair list:
later duplicate keys overwrite earlier ones (in place). -/
def pyDictLit (l : List (String × PyVal)) : PyDict :=
  l.foldl (fun d kv => dset d kv.1 kv.2) []

/-- Python `path.split(".")` (structural, so that the kernel can
evaluate it): splits at every dot, keeping empty pieces. -/
def splitOnDot (s : String) : List String :=
  go s.data []
where
  go : List Char → List Char → List String
  | [], acc => [String.mk acc.reverse]
  | c :: cs, acc => if c = '.' then String.mk acc.reverse :: go cs [] else go cs (c :: acc)

/-- `template.get_nested(data, path)`: split `path` on dots and walk the
dict; a missing key, a `None` value, or a non-dict intermediate all
yield `None`. -/
def get_nested (data : PyDict) (path : String) : PyVal :=
  go (PyVal.dict data) (splitOnDot path)
where
  go : PyVal → List String → PyVal
  | current, [] => current
  | current, part :: rest =>
      match current with
      | .dict d =>
          match dget d part with
          | Option.none => .none
          | some v => if v.isNone then .none else go v rest
      | _ => .none

example : splitOnDot "a.b" = ["a", "b"] := by rfl
example : splitOnDot "a" = ["a"] := by rfl
example : get_nested [("a", .dict [("b", .int 1)])] "a.b" = .int 1 := by rfl
example : get_nested [("a", .int 1)] "a" = .int 1 := by rfl
example : get_nested [("a", .int 1)] "b" = .none := by rfl
example : get_nested [("a", .int 1)] "a.b" = .none := by rfl

theorem dset_hasKey (d : PyDict) (k : String) (v : PyVal) :
    hasKey (dset d k v) k = true := by
  induction d with
  | nil => simp [dset, hasKey]
  | cons hd tl ih =>
      obtain ⟨k', v'⟩ := hd
      by_cases h : k' = k <;> simp [dset, hasKey, h, ih]

theorem dget_dset_self (d : PyDict) (k : String) (v : PyVal) :
    dget (dset d k v) k = some v := by
  induction d with
  | nil => simp [dset, dget]
  | cons hd tl ih =>
      obtain ⟨k', v'⟩ := hd
      by_cases h : k' = k <;> simp [dset, dget, h, ih]

theorem dget_dset_other (d : PyDict) (k k' : String) (v : PyVal) (h : k ≠ k') :
    dget (dset d k v) k' = dget d k' := by
  induction d with
  | nil => simp [dset, dget, h]
  | cons hd tl ih =>
      obtain ⟨k₀, v₀⟩ := hd
      by_cases h₀ : k₀ = k
      · subst h₀
        simp [dset, dget, h]
      · simp [dset, dget, h₀, ih]

theorem dset_length_of_not_hasKey (d : PyDict) (k : String) (v : PyVal)
    (h : hasKey d k = false) : (dset d k v).length = d.length + 1 := by
  induction d with
  | nil => simp [dset]
  | cons hd tl ih =>
      obtain ⟨k₀, v₀⟩ := hd
      simp only [hasKey, Bool.or_eq_false_iff, decide_eq_false_iff_not] at h
      simp [dset, h.1, ih h.2]

theorem dset_ne_of_not_hasKey (d : PyDict) (k : String) (v : PyVal)
    (h : hasKey d k = false) : dset d k v ≠ d := by
  intro heq
  have := dset_length_of_not_hasKey d k v h
  rw [heq] at this
  omega

/-! ## Project model (`project.py` / `parser.py`)

Node definitions carry configuration that no claim inspects (schemas,
prompt bodies, provider settings); each node map is therefore modelled
by its ordered key list.  The `triggers` map follows the newest parser
revision (spec section 3; `build_dag` in `src/runtime/trident/dag.py`
iterates `project.triggers`, whose defining parser revision is not
under `src/`). -/

structure EdgeMapping where
  target_var : String
  source_expr : String
deriving DecidableEq

structure Edge where
  id : String
  from_node : String
  to_node : String
  mappings : List EdgeMapping := []
  condition : Option String := Option.none
deriving DecidableEq

structure Project where
  name : String := ""
  entrypoints : List String := []
  input_nodes : List String := []
  prompts : List String := []
  output_nodes : List String := []
  tools : List String := []
  agents : List String := []
  branches : List String := []
  triggers : List String := []
  edges : List Edge := []

/-! ## DAG construction (`dag.py`) -/

structure DAGNode where
  id : String
  type : String
  incoming_edges : List Edge := []
  outgoing_edges : List Edge := []
deriving DecidableEq

structure DAG where
  nodes : List (String × DAGNode)
  execution_order : List String
  execution_levels : List (List String)
deriving DecidableEq

/-- The `DAGError` raise sites of `build_dag`: unknown edge endpoints,
and the cycle check.  `cycle` carries the set of nodes left without a
level (`set(nodes) - set(execution_order)`, in key order); the
raised message is rendered from it by `DAGError.message`. -/
inductive DAGError where
  | unknownSource (edge_id : String) (node : String)
  | unknownTarget (edge_id : String) (node : String)
  | cycle (remaining : List String)
deriving DecidableEq

/-- The message strings of the `raise DAGError(...)` sites. -/
def DAGError.message : DAGError → String
  | .unknownSource e n => "Edge " ++ e ++ " references unknown source node: " ++ n
  | .unknownTarget e n => "Edge " ++ e ++ " references unknown target node: " ++ n
  | .cycle remaining => "Cycle detected in DAG. Nodes involved: " ++ String.intercalate ", " remaining

/-- `nodes[node_id] = DAGNode(id=node_id, type=ty)`: replace in place
(keeping dict position) or append. -/
def upsertNode (nodes : List (String × DAGNode)) (nid ty : String) : List (String × DAGNode) :=
  match nodes with
  | [] => [(nid, { id := nid, type := ty })]
  | (k, n) :: rest =>
      if k = nid then (nid, { id := nid, type := ty }) :: rest
      else (k, n) :: upsertNode rest nid ty

/-- The node-creation phase of `build_dag`: one `DAGNode` per id, in
the kind order of the source (input, prompt, output, tool, agent,
branch, trigger). -/
def buildNodesList (p : Project) : List (String × DAGNode) :=
  let ns := p.input_nodes.foldl (fun acc i => upsertNode acc i "input") []
  let ns := p.prompts.foldl (fun acc i => upsertNode acc i "prompt") ns
  let ns := p.output_nodes.foldl (fun acc i => upsertNode acc i "output") ns
  let ns := p.tools.foldl (fun acc i => upsertNode acc i "tool") ns
  let ns := p.agents.foldl (fun acc i => upsertNode acc i "agent") ns
  let ns := p.branches.foldl (fun acc i => upsertNode acc i "branch") ns
  p.triggers.foldl (fun acc i => upsertNode acc i "trigger") ns

def lookupNode : List (String × DAGNode) → String → Option DAGNode
  | [], _ => Option.none
  | (k, n) :: rest, v => if k = v then some n else lookupNode rest v

def hasNodeKey (nodes : List (String × DAGNode)) (v : String) : Bool :=
  (lookupNode nodes v).isSome

/-- `nodes[edge.from_node].outgoing_edges.append(edge)`. -/
def appendOutgoing (nodes : List (String × DAGNode)) (e : Edge) : List (String × DAGNode) :=
  nodes.map (fun kn =>
    if kn.1 = e.from_node then (kn.1, { kn.2 with outgoing_edges := kn.2.outgoing_edges ++ [e] })
    else kn)

/-- `nodes[edge.to_node].incoming_edges.append(edge)`. -/
def appendIncoming (nodes : List (String × DAGNode)) (e : Edge) : List (String × DAGNode) :=
  nodes.map (fun kn =>
    if kn.1 = e.to_node then (kn.1, { kn.2 with incoming_edges := kn.2.incoming_edges ++ [e] })
    else kn)

/-- The edge-wiring phase of `build_dag`: per edge, raise for an
unknown source, then for an unknown target, else attach it to both
endpoints. -/
def wireEdges (nodes : List (String × DAGNode)) : List Edge → Except DAGError (List (String × DAGNode))
  | [] => .ok nodes
  | e :: es =>
      if ¬ hasNodeKey nodes e.from_node then .error (.unknownSource e.id e.from_node)
      else if ¬ hasNodeKey nodes e.to_node then .error (.unknownTarget e.id e.to_node)
      else wireEdges (appendIncoming (appendOutgoing nodes e) e) es

/-- Targets of the outgoing edges of `v` (the in-degree decrements
performed for `v` in Kahn's loop, in edge order). -/
def nodeTargets (nodes : List (String × DAGNode)) (v : String) : List String :=
  match lookupNode nodes v with
  | some n => n.outgoing_edges.map (·.to_node)
  | Option.none => []

/-- `in_degree[t] -= 1` as a pointwise function update. -/
def degDec (deg : String → Int) (t : String) : String → Int :=
  fun v => if v = t then deg t - 1 else deg v

/-- The inner loop of the level computation: for each edge target,
`in_degree[t] -= 1`, and if the new value is `0`, append `t` to the
next level. -/
def processTargets : (String → Int) → List String → List String → (String → Int) × List String
  | deg, next, [] => (deg, next)
  | deg, next, t :: ts =>
      processTargets (degDec deg t) (if deg t - 1 = 0 then next ++ [t] else next) ts

/-- Finite support of the in-degree bookkeeping: all node keys plus
all edge targets (with multiplicity; only membership matters). -/
def kahnSupportList (nodes : List (String × DAGNode)) : List String :=
  nodes.map Prod.fst ++ nodes.flatMap (fun kn => kn.2.outgoing_edges.map (·.to_node))

/-- Termination measure of the `while current_level:` loop of
`build_dag`: the remaining positive in-degree mass plus the size of the
current level. -/
def kahnMeasure (nodes : List (String × DAGNode)) (deg : String → Int) (current : List String) : Nat :=
  ((kahnSupportList nodes).map (fun v => (deg v).toNat)).sum + current.length

theorem lookupNode_mem {nodes : List (String × DAGNode)} {v : String} {n : DAGNode}
    (h : lookupNode nodes v = some n) : (v, n) ∈ nodes := by
  induction nodes with
  | nil => simp [lookupNode] at h
  | cons hd tl ih =>
      obtain ⟨k, m⟩ := hd
      by_cases hk : k = v
      · subst hk
        simp [lookupNode] at h
        subst h
        exact List.mem_cons_self _ _
      · simp [lookupNode, hk] at h
        exact List.mem_cons_of_mem _ (ih h)

theorem nodeTargets_subset_support {nodes : List (String × DAGNode)} {v t : String}
    (h : t ∈ nodeTargets nodes v) : t ∈ kahnSupportList nodes := by
  unfold nodeTargets at h
  cases hl : lookupNode nodes v with
  | none => rw [hl] at h; simp at h
  | some n =>
      rw [hl] at h
      have hmem := lookupNode_mem hl
      unfold kahnSupportList
      rw [List.mem_append]
      right
      rw [List.mem_flatMap]
      exact ⟨(v, n), hmem, h⟩

theorem degDec_self (deg : String → Int) (t : String) : degDec deg t t = deg t - 1 := by
  simp [degDec]

theorem degDec_other (deg : String → Int) (t u : String) (h : u ≠ t) : degDec deg t u = deg u := by
  simp [degDec, h]

theorem degDec_le (deg : String → Int) (t u : String) : degDec deg t u ≤ deg u := by
  by_cases h : u = t
  · subst h
    rw [degDec_self]
    omega
  · rw [degDec_other deg t u h]

theorem degUpdate_pointwise (deg : String → Int) (t u : String) :
    (degDec deg t u).toNat ≤ (deg u).toNat := by
  by_cases h : u = t
  · subst h
    rw [degDec_self]
    omega
  · rw [degDec_other deg t u h]

theorem listSum_update_le (l : List String) (deg : String → Int) (t : String) :
    (l.map (fun v => (degDec deg t v).toNat)).sum
    ≤ (l.map (fun v => (deg v).toNat)).sum :=
  List.sum_le_sum (fun u _ => degUpdate_pointwise deg t u)

theorem listSum_update (l : List String) (deg : String → Int) (t : String) (ht : t ∈ l) :
    (l.map (fun v => (degDec deg t v).toNat)).sum
      + (if deg t - 1 = 0 then 1 else 0)
    ≤ (l.map (fun v => (deg v).toNat)).sum := by
  induction l with
  | nil => simp at ht
  | cons a l ih =>
      simp only [List.map_cons, List.sum_cons]
      by_cases ha : a = t
      · subst ha
        have tail_le := listSum_update_le l deg a
        rw [degDec_self]
        by_cases hd : deg a - 1 = 0
        · rw [if_pos hd]
          omega
        · rw [if_neg hd]
          omega
      · have ht' : t ∈ l := by
          rcases List.mem_cons.mp ht with h | h
          · exact absurd h.symm ha
          · exact h
        have := ih ht'
        rw [degDec_other deg t a ha]
        omega

theorem processTargets_measure (support : List String) :
    ∀ (ts : List String) (deg : String → Int) (next : List String), (∀ u ∈ ts, u ∈ support) →
      (support.map (fun v => ((processTargets deg next ts).1 v).toNat)).sum
        + (processTargets deg next ts).2.length ≤
      (support.map (fun v => (deg v).toNat)).sum + next.length := by
  intro ts
  induction ts with
  | nil => intro deg next _; simp [processTargets]
  | cons t ts ih =>
      intro deg next hsub
      have ht : t ∈ support := hsub t (List.mem_cons_self _ _)
      have hts : ∀ u ∈ ts, u ∈ support := fun u hu => hsub u (List.mem_cons_of_mem _ hu)
      simp only [processTargets]
      have step := listSum_update support deg t ht
      have ihs := ih (degDec deg t) (if deg t - 1 = 0 then next ++ [t] else next) hts
      have hlen : (if deg t - 1 = 0 then next ++ [t] else next).length
          = next.length + (if deg t - 1 = 0 then 1 else 0) := by
        by_cases hd : deg t - 1 = 0 <;> simp [hd]
      omega

theorem kahn_step_decreasing (nodes : List (String × DAGNode)) (deg : String → Int)
    (current : List String) (h : current ≠ []) :
    kahnMeasure nodes
      (processTargets deg [] ((current.insertionSort (fun a b => a ≤ b)).flatMap (nodeTargets nodes))).1
      (processTargets deg [] ((current.insertionSort (fun a b => a ≤ b)).flatMap (nodeTargets nodes))).2 <
    kahnMeasure nodes deg current := by
  have hsub : ∀ t ∈ (current.insertionSort (fun a b => a ≤ b)).flatMap (nodeTargets nodes),
      t ∈ kahnSupportList nodes := by
    intro t htm
    rw [List.mem_flatMap] at htm
    obtain ⟨v, _, hv⟩ := htm
    exact nodeTargets_subset_support hv
  have hm := processTargets_measure (kahnSupportList nodes) _ deg [] hsub
  have hc : 0 < current.length := List.length_pos.mpr h
  unfold kahnMeasure
  simp only [List.length_nil, Nat.add_zero] at hm
  omega

/-- The level-extraction loop of `build_dag` (modified Kahn), written
with explicit fuel so that it is structurally recursive (and hence
kernel-evaluable): sort the current zero-in-degree set (Python
`current_level.sort()`; any sorted permutation of a string list is
unique, so a stable sort is extensionally this one), emit it as the
next level, decrement the in-degrees of its edge targets, and continue
with the nodes whose in-degree just reached zero. -/
def kahnLoopF (nodes : List (String × DAGNode)) :
    Nat → (String → Int) → List String → List (List String) × List String
  | 0, _, _ => ([], [])
  | fuel + 1, deg, current =>
      if current = [] then ([], [])
      else
        let sorted := current.insertionSort (fun a b => a ≤ b)
        let pr := processTargets deg [] (sorted.flatMap (nodeTargets nodes))
        let r := kahnLoopF nodes fuel pr.1 pr.2
        (sorted :: r.1, sorted ++ r.2)

/-- The loop with enough fuel: `kahn_step_decreasing` shows the
measure strictly decreases at every pass, so `kahnMeasure + 1` passes
always run the Python `while current_level:` loop to completion. -/
def kahnLoop (nodes : List (String × DAGNode)) (deg : String → Int) (current : List String) :
    List (List String) × List String :=
  kahnLoopF nodes (kahnMeasure nodes deg current + 1) deg current

/-- The initial in-degree map `{node_id: len(node.incoming_edges)}`. -/
def initialDeg (nodes : List (String × DAGNode)) : String → Int :=
  fun v => ((lookupNode nodes v).map (fun n => (n.incoming_edges.length : Int))).getD 0

/-- The initial zero-in-degree level, in node (dict) order. -/
def initialLevel (nodes : List (String × DAGNode)) : List String :=
  (nodes.filter (fun kn => kn.2.incoming_edges.length = 0)).map Prod.fst

/-- `dag.build_dag`: create the nodes, wire and validate the edges,
compute the execution levels, and fail with the unassigned node set if
a cycle remains. -/
def build_dag (p : Project) : Except DAGError DAG :=
  match wireEdges (buildNodesList p) p.edges with
  | .error e => .error e
  | .ok nodes =>
      let lv := kahnLoop nodes (initialDeg nodes) (initialLevel nodes)
      if lv.2.length ≠ nodes.length then
        .error (.cycle ((nodes.map Prod.fst).filter (fun v => ¬ v ∈ lv.2)))
      else
        .ok { nodes := nodes, execution_order := lv.2, execution_levels := lv.1 }

/-! ### Structural lemmas about the DAG builder -/

theorem hasNodeKey_iff_mem (nodes : List (String × DAGNode)) (v : String) :
    hasNodeKey nodes v = true ↔ v ∈ nodes.map Prod.fst := by
  induction nodes with
  | nil => simp [hasNodeKey, lookupNode]
  | cons hd tl ih =>
      obtain ⟨k, n⟩ := hd
      unfold hasNodeKey lookupNode
      by_cases hk : k = v
      · subst hk
        simp
      · rw [if_neg hk]
        unfold hasNodeKey at ih
        rw [List.map_cons, List.mem_cons, ih]
        constructor
        · intro h
          exact Or.inr h
        · rintro (h | h)
          · exact absurd h.symm hk
          · exact h

theorem appendOutgoing_keys (nodes : List (String × DAGNode)) (e : Edge) :
    (appendOutgoing nodes e).map Prod.fst = nodes.map Prod.fst := by
  unfold appendOutgoing
  rw [List.map_map]
  refine List.map_congr_left ?_
  intro kn _
  by_cases h : kn.1 = e.from_node <;> simp [h]

theorem appendIncoming_keys (nodes : List (String × DAGNode)) (e : Edge) :
    (appendIncoming nodes e).map Prod.fst = nodes.map Prod.fst := by
  unfold appendIncoming
  rw [List.map_map]
  refine List.map_congr_left ?_
  intro kn _
  by_cases h : kn.1 = e.to_node <;> simp [h]

theorem wireEdges_keys (es : List Edge) :
    ∀ (nodes nodes' : List (String × DAGNode)), wireEdges nodes es = .ok nodes' →
      nodes'.map Prod.fst = nodes.map Prod.fst := by
  induction es with
  | nil =>
      intro nodes nodes' h
      simp [wireEdges] at h
      rw [h]
  | cons e es ih =>
      intro nodes nodes' h
      unfold wireEdges at h
      by_cases h₁ : hasNodeKey nodes e.from_node
      · by_cases h₂ : hasNodeKey nodes e.to_node
        · simp [h₁, h₂] at h
          have := ih _ _ h
          rw [this, appendIncoming_keys, appendOutgoing_keys]
        · simp [h₁, h₂] at h
      · simp [h₁] at h

theorem wireEdges_ok (es : List Edge) :
    ∀ (nodes : List (String × DAGNode)),
      (∀ e ∈ es, hasNodeKey nodes e.from_node ∧ hasNodeKey nodes e.to_node) →
      ∃ nodes', wireEdges nodes es = .ok nodes' := by
  induction es with
  | nil => intro nodes _; exact ⟨nodes, rfl⟩
  | cons e es ih =>
      intro nodes h
      have he := h e (List.mem_cons_self _ _)
      have hkeys : (appendIncoming (appendOutgoing nodes e) e).map Prod.fst = nodes.map Prod.fst := by
        rw [appendIncoming_keys, appendOutgoing_keys]
      have hrest : ∀ e' ∈ es, hasNodeKey (appendIncoming (appendOutgoing nodes e) e) e'.from_node ∧
          hasNodeKey (appendIncoming (appendOutgoing nodes e) e) e'.to_node := by
        intro e' he'
        have := h e' (List.mem_cons_of_mem _ he')
        constructor
        · rw [hasNodeKey_iff_mem, hkeys, ← hasNodeKey_iff_mem]
          exact this.1
        · rw [hasNodeKey_iff_mem, hkeys, ← hasNodeKey_iff_mem]
          exact this.2
      obtain ⟨nodes', hn⟩ := ih _ hrest
      refine ⟨nodes', ?_⟩
      unfold wireEdges
      simp [he.1, he.2]
      exact hn

theorem upsertNode_keys_of_mem (nodes : List (String × DAGNode)) (nid ty : String)
    (h : nid ∈ nodes.map Prod.fst) :
    (upsertNode nodes nid ty).map Prod.fst = nodes.map Prod.fst := by
  induction nodes with
  | nil => simp at h
  | cons hd tl ih =>
      obtain ⟨k, n⟩ := hd
      by_cases hk : k = nid
      · subst hk
        simp [upsertNode]
      · simp only [List.map_cons, List.mem_cons] at h
        rcases h with h | h
        · exact absurd h.symm hk
        · simp [upsertNode, hk, ih h]

theorem upsertNode_keys_of_not_mem (nodes : List (String × DAGNode)) (nid ty : String)
    (h : ¬ nid ∈ nodes.map Prod.fst) :
    (upsertNode nodes nid ty).map Prod.fst = nodes.map Prod.fst ++ [nid] := by
  induction nodes with
  | nil => simp [upsertNode]
  | cons hd tl ih =>
      obtain ⟨k, n⟩ := hd
      simp only [List.map_cons, List.mem_cons] at h
      push_neg at h
      simp [upsertNode, Ne.symm h.1, ih h.2]

theorem upsertNode_keys_nodup (nodes : List (String × DAGNode)) (nid ty : String)
    (h : (nodes.map Prod.fst).Nodup) : ((upsertNode nodes nid ty).map Prod.fst).Nodup := by
  by_cases hm : nid ∈ nodes.map Prod.fst
  · rw [upsertNode_keys_of_mem nodes nid ty hm]
    exact h
  · rw [upsertNode_keys_of_not_mem nodes nid ty hm]
    rw [List.nodup_append]
    refine ⟨h, List.nodup_singleton _, ?_⟩
    intro a ha hb
    rw [List.mem_singleton] at hb
    subst hb
    exact hm ha

theorem foldl_upsert_keys_nodup (ty : String) (ids : List String) :
    ∀ (nodes : List (String × DAGNode)), (nodes.map Prod.fst).Nodup →
      ((ids.foldl (fun acc i => upsertNode acc i ty) nodes).map Prod.fst).Nodup := by
  induction ids with
  | nil => intro nodes h; exact h
  | cons i ids ih =>
      intro nodes h
      exact ih _ (upsertNode_keys_nodup nodes i ty h)

theorem buildNodesList_keys_nodup (p : Project) :
    ((buildNodesList p).map Prod.fst).Nodup := by
  unfold buildNodesList
  apply foldl_upsert_keys_nodup
  apply foldl_upsert_keys_nodup
  apply foldl_upsert_keys_nodup
  apply foldl_upsert_keys_nodup
  apply foldl_upsert_keys_nodup
  apply foldl_upsert_keys_nodup
  apply foldl_upsert_keys_nodup
  simp

theorem lookupNode_of_mem_nodup {nodes : List (String × DAGNode)} {v : String} {n : DAGNode}
    (hnd : (nodes.map Prod.fst).Nodup) (h : (v, n) ∈ nodes) : lookupNode nodes v = some n := by
  induction nodes with
  | nil => simp at h
  | cons hd tl ih =>
      obtain ⟨k, m⟩ := hd
      simp only [List.map_cons, List.nodup_cons] at hnd
      rcases List.mem_cons.mp h with h₀ | h₀
      · injection h₀ with h1 h2
        subst h1
        subst h2
        simp [lookupNode]
      · have hkv : k ≠ v := by
          intro hkv
          subst hkv
          exact hnd.1 (List.mem_map_of_mem Prod.fst h₀)
        simp only [lookupNode, if_neg hkv]
        exact ih hnd.2 h₀

/-! ### Behaviour of the in-degree loop -/

theorem processTargets_deg_le (ts : List String) :
    ∀ (deg : String → Int) (next : List String) (v : String),
      (processTargets deg next ts).1 v ≤ deg v := by
  induction ts with
  | nil => intro deg next v; simp [processTargets]
  | cons t ts ih =>
      intro deg next v
      simp only [processTargets]
      refine le_trans (ih (degDec deg t) _ v) ?_
      by_cases h : v = t
      · subst h
        rw [degDec_self]
        omega
      · rw [degDec_other deg t v h]

theorem processTargets_next_mem (ts : List String) :
    ∀ (deg : String → Int) (next : List String) (v : String),
      v ∈ (processTargets deg next ts).2 → v ∈ next ∨ (0 < deg v ∧ v ∈ ts) := by
  induction ts with
  | nil => intro deg next v h; simp [processTargets] at h; exact Or.inl h
  | cons t ts ih =>
      intro deg next v h
      simp only [processTargets] at h
      rcases ih (degDec deg t) _ v h with h₁ | h₁
      · by_cases hd : deg t - 1 = 0
        · rw [if_pos hd] at h₁
          rcases List.mem_append.mp h₁ with h₂ | h₂
          · exact Or.inl h₂
          · rw [List.mem_singleton] at h₂
            subst h₂
            refine Or.inr ⟨by omega, List.mem_cons_self _ _⟩
        · rw [if_neg hd] at h₁
          exact Or.inl h₁
      · refine Or.inr ⟨?_, List.mem_cons_of_mem _ h₁.2⟩
        by_cases h : v = t
        · subst h
          rw [degDec_self] at h₁
          omega
        · rw [degDec_other deg t v h] at h₁
          exact h₁.1

theorem processTargets_next_nodup (ts : List String) :
    ∀ (deg : String → Int) (next : List String),
      (∀ v ∈ next, deg v ≤ 0) → next.Nodup →
      (processTargets deg next ts).2.Nodup ∧
        (∀ v ∈ (processTargets deg next ts).2, (processTargets deg next ts).1 v ≤ 0) := by
  induction ts with
  | nil =>
      intro deg next h hnd
      simp only [processTargets]
      exact ⟨hnd, h⟩
  | cons t ts ih =>
      intro deg next h hnd
      simp only [processTargets]
      by_cases hd : deg t - 1 = 0
      · rw [if_pos hd]
        have hnotin : ¬ t ∈ next := by
          intro hin
          have := h t hin
          omega
        refine ih (degDec deg t) (next ++ [t]) ?_ ?_
        · intro v hv
          rcases List.mem_append.mp hv with h₂ | h₂
          · refine le_trans (degDec_le deg t v) (h v h₂)
          · rw [List.mem_singleton] at h₂
            subst h₂
            rw [degDec_self]
            omega
        · rw [List.nodup_append]
          refine ⟨hnd, List.nodup_singleton _, ?_⟩
          intro a ha hb
          rw [List.mem_singleton] at hb
          subst hb
          exact hnotin ha
      · rw [if_neg hd]
        refine ih (degDec deg t) next ?_ hnd
        intro v hv
        exact le_trans (degDec_le deg t v) (h v hv)

/-! ### Behaviour of the level loop -/

theorem kahnLoopF_flatten (nodes : List (String × DAGNode)) :
    ∀ (fuel : Nat) (deg : String → Int) (current : List String),
      kahnMeasure nodes deg current < fuel →
      (kahnLoopF nodes fuel deg current).1.flatten = (kahnLoopF nodes fuel deg current).2 := by
  intro fuel
  induction fuel with
  | zero => intro deg current h; omega
  | succ fuel ih =>
      intro deg current h
      by_cases hc : current = []
      · simp [kahnLoopF, hc]
      · simp only [kahnLoopF, if_neg hc, List.flatten_cons]
        rw [ih _ _ ?_]
        have := kahn_step_decreasing nodes deg current hc
        omega

theorem kahnLoopF_invariant (nodes : List (String × DAGNode)) :
    ∀ (fuel : Nat) (deg : String → Int) (current : List String),
      kahnMeasure nodes deg current < fuel →
      current.Nodup → (∀ v ∈ current, deg v ≤ 0) →
      (kahnLoopF nodes fuel deg current).2.Nodup ∧
        (∀ v ∈ (kahnLoopF nodes fuel deg current).2, v ∈ current ∨ 0 < deg v) := by
  intro fuel
  induction fuel with
  | zero => intro deg current h; omega
  | succ fuel ih =>
      intro deg current h hnd hdeg
      by_cases hc : current = []
      · simp [kahnLoopF, hc]
      · have hperm : (current.insertionSort (fun a b => a ≤ b)).Perm current :=
          List.perm_insertionSort _ _
        have hsnd : (current.insertionSort (fun a b => a ≤ b)).Nodup :=
          hperm.nodup_iff.mpr hnd
        have hsdeg : ∀ v ∈ current.insertionSort (fun a b => a ≤ b), deg v ≤ 0 :=
          fun v hv => hdeg v (hperm.mem_iff.mp hv)
        have hpt := processTargets_next_nodup
          ((current.insertionSort (fun a b => a ≤ b)).flatMap (nodeTargets nodes))
          deg [] (by intro v hv; simp at hv) List.nodup_nil
        have hdec := kahn_step_decreasing nodes deg current hc
        have hih := ih
          (processTargets deg [] ((current.insertionSort (fun a b => a ≤ b)).flatMap (nodeTargets nodes))).1
          (processTargets deg [] ((current.insertionSort (fun a b => a ≤ b)).flatMap (nodeTargets nodes))).2
          (by omega) hpt.1 hpt.2
        simp only [kahnLoopF, if_neg hc]
        constructor
        · rw [List.nodup_append]
          refine ⟨hsnd, hih.1, ?_⟩
          intro a ha hb
          have hadeg : deg a ≤ 0 := hsdeg a ha
          rcases hih.2 a hb with h₂ | h₂
          · rcases processTargets_next_mem _ _ _ _ h₂ with h₃ | h₃
            · simp at h₃
            · omega
          · have := processTargets_deg_le
              ((current.insertionSort (fun a b => a ≤ b)).flatMap (nodeTargets nodes)) deg [] a
            omega
        · intro v hv
          rcases List.mem_append.mp hv with h₂ | h₂
          · exact Or.inl (hperm.mem_iff.mp h₂)
          · rcases hih.2 v h₂ with h₃ | h₃
            · rcases processTargets_next_mem _ _ _ _ h₃ with h₄ | h₄
              · simp at h₄
              · exact Or.inr h₄.1
            · have := processTargets_deg_le
                ((current.insertionSort (fun a b => a ≤ b)).flatMap (nodeTargets nodes)) deg [] v
              exact Or.inr (by omega)

theorem initialLevel_nodup (nodes : List (String × DAGNode))
    (hnd : (nodes.map Prod.fst).Nodup) : (initialLevel nodes).Nodup := by
  unfold initialLevel
  exact hnd.sublist ((List.filter_sublist nodes).map Prod.fst)

theorem initialLevel_deg (nodes : List (String × DAGNode))
    (hnd : (nodes.map Prod.fst).Nodup) :
    ∀ v ∈ initialLevel nodes, initialDeg nodes v ≤ 0 := by
  intro v hv
  unfold initialLevel at hv
  rw [List.mem_map] at hv
  obtain ⟨⟨v', n⟩, hmem, hfst⟩ := hv
  cases hfst
  rw [List.mem_filter] at hmem
  have hlk := lookupNode_of_mem_nodup hnd hmem.1
  unfold initialDeg
  rw [hlk]
  have : n.incoming_edges.length = 0 := by
    have := hmem.2
    simpa using this
  simp [this]

theorem initialLevel_subset_keys (nodes : List (String × DAGNode)) :
    ∀ v ∈ initialLevel nodes, v ∈ nodes.map Prod.fst := by
  intro v hv
  unfold initialLevel at hv
  rw [List.mem_map] at hv
  obtain ⟨⟨v', n⟩, hmem, hfst⟩ := hv
  cases hfst
  rw [List.mem_filter] at hmem
  exact List.mem_map_of_mem Prod.fst hmem.1

theorem mem_keys_of_initialDeg_pos (nodes : List (String × DAGNode)) (v : String)
    (h : 0 < initialDeg nodes v) : v ∈ nodes.map Prod.fst := by
  unfold initialDeg at h
  cases hl : lookupNode nodes v with
  | none => rw [hl] at h; simp at h
  | some n => exact List.mem_map_of_mem Prod.fst (lookupNode_mem hl)

theorem kahnLoop_flatten (nodes : List (String × DAGNode)) (deg : String → Int)
    (current : List String) :
    (kahnLoop nodes deg current).1.flatten = (kahnLoop nodes deg current).2 :=
  kahnLoopF_flatten nodes _ deg current (Nat.lt_succ_self _)

theorem kahn_order_nodup_subset (nodes : List (String × DAGNode))
    (hnd : (nodes.map Prod.fst).Nodup) :
    (kahnLoop nodes (initialDeg nodes) (initialLevel nodes)).2.Nodup ∧
      ∀ v ∈ (kahnLoop nodes (initialDeg nodes) (initialLevel nodes)).2, v ∈ nodes.map Prod.fst := by
  have hinv := kahnLoopF_invariant nodes _ (initialDeg nodes) (initialLevel nodes)
    (Nat.lt_succ_self _) (initialLevel_nodup nodes hnd) (initialLevel_deg nodes hnd)
  refine ⟨hinv.1, ?_⟩
  intro v hv
  rcases hinv.2 v hv with h | h
  · exact initialLevel_subset_keys nodes v h
  · exact mem_keys_of_initialDeg_pos nodes v h

/-- **C2.** For every project (whose edges reference declared nodes, the
project invariant that `load_project` establishes by creating implicit
nodes for unknown endpoints), `build_dag` either returns a DAG in which
the concatenation of `execution_levels` equals `execution_order` and the
length of `execution_order` equals the number of nodes (every node
appears exactly once), or raises a `DAGError` whose message names at
least one node involved in a cycle — namely the nonempty set of nodes
left unassigned to any level. -/
theorem claim_C2_build_dag_levels_or_cycle (p : Project)
    (hedges : ∀ e ∈ p.edges,
      hasNodeKey (buildNodesList p) e.from_node = true ∧
      hasNodeKey (buildNodesList p) e.to_node = true) :
    (∀ dag, build_dag p = .ok dag →
        dag.execution_levels.flatten = dag.execution_order ∧
        dag.execution_order.length = dag.nodes.length ∧
        dag.execution_order.Nodup ∧
        (∀ v, hasNodeKey dag.nodes v = true ↔ v ∈ dag.execution_order)) ∧
    (∀ err, build_dag p = .error err →
        ∃ nodes' remaining,
          wireEdges (buildNodesList p) p.edges = .ok nodes' ∧
          err = DAGError.cycle remaining ∧
          remaining ≠ [] ∧
          err.message = "Cycle detected in DAG. Nodes involved: " ++ String.intercalate ", " remaining ∧
          remaining = (nodes'.map Prod.fst).filter
            (fun v => ¬ v ∈ (kahnLoop nodes' (initialDeg nodes') (initialLevel nodes')).1.flatten) ∧
          ∀ v ∈ remaining, hasNodeKey nodes' v = true ∧
            ¬ v ∈ (kahnLoop nodes' (initialDeg nodes') (initialLevel nodes')).1.flatten) := by
  constructor
  · intro dag h
    unfold build_dag at h
    cases hw : wireEdges (buildNodesList p) p.edges with
    | error e =>
        rw [hw] at h
        exact absurd h (by simp)
    | ok nodes' =>
        rw [hw] at h
        dsimp only at h
        have hknd : (nodes'.map Prod.fst).Nodup := by
          rw [wireEdges_keys p.edges _ _ hw]
          exact buildNodesList_keys_nodup p
        by_cases hlen :
            (kahnLoop nodes' (initialDeg nodes') (initialLevel nodes')).2.length ≠ nodes'.length
        · rw [if_pos hlen] at h
          exact absurd h (by simp)
        · rw [if_neg hlen] at h
          rw [Except.ok.injEq] at h
          subst h
          push_neg at hlen
          have hos := kahn_order_nodup_subset nodes' hknd
          refine ⟨kahnLoop_flatten nodes' _ _, by simpa using hlen, hos.1, ?_⟩
          intro v
          have hsp : List.Subperm (kahnLoop nodes' (initialDeg nodes') (initialLevel nodes')).2
              (nodes'.map Prod.fst) :=
            List.subperm_of_subset hos.1 hos.2
          have hperm := hsp.perm_of_length_le (by rw [List.length_map]; omega)
          dsimp only
          rw [hasNodeKey_iff_mem]
          exact ⟨fun hv => hperm.mem_iff.mpr hv, fun hv => hperm.mem_iff.mp hv⟩
  · intro err h
    unfold build_dag at h
    cases hw : wireEdges (buildNodesList p) p.edges with
    | error e =>
        obtain ⟨nodes', hok⟩ := wireEdges_ok p.edges _ hedges
        rw [hok] at hw
        exact absurd hw (by simp)
    | ok nodes' =>
        rw [hw] at h
        dsimp only at h
        have hknd : (nodes'.map Prod.fst).Nodup := by
          rw [wireEdges_keys p.edges _ _ hw]
          exact buildNodesList_keys_nodup p
        by_cases hlen :
            (kahnLoop nodes' (initialDeg nodes') (initialLevel nodes')).2.length ≠ nodes'.length
        · rw [if_pos hlen] at h
          rw [Except.error.injEq] at h
          have hos := kahn_order_nodup_subset nodes' hknd
          have hflat := kahnLoop_flatten nodes' (initialDeg nodes') (initialLevel nodes')
          have hlt : (kahnLoop nodes' (initialDeg nodes') (initialLevel nodes')).2.length <
              (nodes'.map Prod.fst).length := by
            have hsp : List.Subperm (kahnLoop nodes' (initialDeg nodes') (initialLevel nodes')).2
                (nodes'.map Prod.fst) :=
              List.subperm_of_subset hos.1 hos.2
            have := hsp.length_le
            rw [List.length_map] at *
            omega
          have hmiss : ∃ v ∈ nodes'.map Prod.fst,
              ¬ v ∈ (kahnLoop nodes' (initialDeg nodes') (initialLevel nodes')).2 := by
            by_contra hall
            push_neg at hall
            have hsp2 : List.Subperm (nodes'.map Prod.fst)
                (kahnLoop nodes' (initialDeg nodes') (initialLevel nodes')).2 :=
              List.subperm_of_subset hknd hall
            have := hsp2.length_le
            omega
          obtain ⟨v, hvk, hvo⟩ := hmiss
          subst h
          refine ⟨nodes', (nodes'.map Prod.fst).filter
              (fun v => ¬ v ∈ (kahnLoop nodes' (initialDeg nodes') (initialLevel nodes')).2),
            rfl, rfl, ?_, rfl, ?_, ?_⟩
          · have hvf : v ∈ (nodes'.map Prod.fst).filter
                (fun v => ¬ v ∈ (kahnLoop nodes' (initialDeg nodes') (initialLevel nodes')).2) := by
              rw [List.mem_filter]
              exact ⟨hvk, by simpa using hvo⟩
            intro hnil
            rw [hnil] at hvf
            simp at hvf
          · simp only [hflat]
          · intro u hu
            rw [List.mem_filter] at hu
            rw [hflat]
            refine ⟨(hasNodeKey_iff_mem nodes' u).mpr hu.1, by simpa using hu.2⟩
        · rw [if_neg hlen] at h
          exact absurd h (by simp)

/-! ## Executor model (`executor.py`)

The executor is embedded as a pure state-passing program over:
* `CondEval` — an oracle for `conditions.evaluate` (an out-of-scope
  collaborator per the spec; `.error` models a raised exception);
* a work oracle `String → PyDict → WorkOutcome` standing for the
  provider/tool/sub-workflow work of `_execute_prompt_node`,
  `_execute_tool_node`, `_execute_agent_node` and `_execute_branch_node`
  applied to the gathered inputs (`WorkOutcome.branchSkip` is the
  branch pre-condition-false path, which marks the trace skipped and
  passes the gathered inputs through as output).
Timestamps, token counts and verbose printing are elided. -/

abbrev CondEval := String → PyDict → Except Unit Bool

def alookup {α : Type} : List (String × α) → String → Option α
  | [], _ => Option.none
  | (k, v) :: rest, key => if k = key then some v else alookup rest key

def ahasKey {α : Type} (l : List (String × α)) (k : String) : Bool :=
  (alookup l k).isSome

/-- `d[k] = v` on a generic association map (replace in place, else
append), as for Python dict assignment. -/
def aset {α : Type} : List (String × α) → String → α → List (String × α)
  | [], k, v => [(k, v)]
  | (k', v') :: rest, k, v =>
      if k' = k then (k, v) :: rest else (k', v') :: aset rest k v

def strContainsDot (s : String) : Bool := s.data.contains '.'

def strStartsWithOutputDot (s : String) : Bool := "output.".data.isPrefixOf s.data

def stripOutputDot (s : String) : String := String.mk (s.data.drop 7)

/-- The per-mapping resolution step of `_gather_inputs`: resolve the
dotted source expression; if that yields `None` and the expression is
dotted, retry with the `output.` prefix stripped (when present). -/
def resolveMapping (source_output : PyDict) (expr : String) : PyVal :=
  let value := get_nested source_output expr
  if value.isNone && strContainsDot expr then
    get_nested source_output (if strStartsWithOutputDot expr then stripOutputDot expr else expr)
  else value

/-- One mapping assignment of `_gather_inputs`: only set the target
variable if the value is not `None` or the variable is still absent. -/
def gatherStep (source_output : PyDict) (inputs : PyDict) (m : EdgeMapping) : PyDict :=
  let value := resolveMapping source_output m.source_expr
  if ¬ value.isNone || ¬ hasKey inputs m.target_var then dset inputs m.target_var value
  else inputs

/-- `_gather_inputs`: fold the node's incoming edges (in order) over
the upstream output map; edges whose source produced no output are
skipped entirely. -/
def gather_inputs (incoming : List Edge) (node_outputs : List (String × PyDict)) : PyDict :=
  incoming.foldl
    (fun inputs edge =>
      let source_output := (alookup node_outputs edge.from_node).getD []
      if source_output.isEmpty then inputs
      else edge.mappings.foldl (gatherStep source_output) inputs)
    []

/-- The condition context `{"output": source_output, **source_output}`:
a dict display, so a source field named `output` overwrites the
`output` binding. -/
def contextOf (source_output : PyDict) : PyDict :=
  pyDictLit (("output", PyVal.dict source_output) :: source_output)

/-- `_should_execute`: no (or falsy empty) condition runs; otherwise
evaluate against the source output's context, treating evaluation
errors as `False`. -/
def should_execute (evalCond : CondEval) (edge : Edge) (source_output : PyDict) : Bool :=
  match edge.condition with
  | Option.none => true
  | some c =>
      if c = "" then true
      else
        match evalCond c (contextOf source_output) with
        | .ok b => b
        | .error _ => false

structure NodeTrace where
  id : String
  input : PyDict := []
  output : PyDict := []
  skipped : Bool := false
  error : Option String := Option.none
  error_type : Option String := Option.none
  cost_usd : Option Rat := Option.none
  session_id : Option String := Option.none
  num_turns : Int := 0

def NodeTrace.succeeded (n : NodeTrace) : Bool := n.error.isNone && ¬ n.skipped

structure ExecutionTrace where
  run_id : String := ""
  nodes : List NodeTrace := []
  error : Option String := Option.none

def ExecutionTrace.succeeded (t : ExecutionTrace) : Bool :=
  t.error.isNone && t.nodes.all (fun n => n.succeeded || n.skipped)

/-- `errors.NodeExecutionError` (the wrapped `cause` is its message
string; `message = str(result.error)` coincides with it). -/
structure NodeExecutionError where
  node_id : String
  node_type : String
  message : String
  cause_type : Option String := Option.none
  inputs : PyDict := []

structure ExecutionResult where
  outputs : PyDict
  trace : ExecutionTrace
  error : Option NodeExecutionError := Option.none

def ExecutionResult.success (r : ExecutionResult) : Bool :=
  r.error.isNone && r.trace.succeeded

structure CheckpointNodeData where
  outputs : PyDict
  completed_at : String
  session_id : Option String := Option.none
  cost_usd : Option Rat := Option.none
  num_turns : Int := 0

structure Checkpoint where
  run_id : String
  project_name : String
  started_at : String
  updated_at : String
  status : String
  completed_nodes : List (String × CheckpointNodeData) := []
  pending_nodes : List String := []
  total_cost_usd : Rat := 0
  inputs : PyDict := []
  entrypoint : Option String := Option.none
  branch_states : List (String × Int) := []

/-- Outcome of the type-specific work of a dispatched node, applied to
its gathered inputs (oracle for providers, tools and sub-workflows). -/
inductive WorkOutcome where
  | ok (output : PyDict)
  | branchSkip (output : PyDict)
  | err (msg ty : String)

structure NodeExecResult where
  node_id : String
  node_trace : NodeTrace
  output : Option PyDict := Option.none
  error : Option String := Option.none
  skipped : Bool := false

/-- `_execute_node_async`: evaluate the edge gates against the current
output map; on pass, dispatch by node type (`input` and `output` nodes
are computed in place, `prompt`/`tool`/`agent`/`branch` gather inputs
and defer to the work oracle, any other type — e.g. `trigger`, which
has no dispatcher — falls through with an empty output).  Exceptions
never escape: they become the result's `error`. -/
def executeNodeAsync (evalCond : CondEval) (work : String → PyDict → WorkOutcome)
    (nodeOf : String → DAGNode) (node_outputs : List (String × PyDict)) (node_id : String) :
    NodeExecResult :=
  let node := nodeOf node_id
  let should_run := node.incoming_edges.all
    (fun e => should_execute evalCond e ((alookup node_outputs e.from_node).getD []))
  if ¬ should_run then
    { node_id := node_id, node_trace := { id := node_id, skipped := true }, skipped := true }
  else if node.type = "input" then
    let out := (alookup node_outputs node_id).getD []
    { node_id := node_id, node_trace := { id := node_id, output := out }, output := some out }
  else if node.type = "output" then
    let g := gather_inputs node.incoming_edges node_outputs
    { node_id := node_id, node_trace := { id := node_id, input := g, output := g },
      output := some g }
  else if node.type = "prompt" || node.type = "tool" || node.type = "agent" || node.type = "branch" then
    let g := gather_inputs node.incoming_edges node_outputs
    match work node_id g with
    | .ok out =>
        { node_id := node_id, node_trace := { id := node_id, input := g, output := out },
          output := some out }
    | .branchSkip out =>
        { node_id := node_id,
          node_trace := { id := node_id, input := g, output := out, skipped := true },
          output := some out }
    | .err msg ty =>
        { node_id := node_id,
          node_trace := { id := node_id, input := g, error := some msg, error_type := some ty },
          error := some msg }
  else
    { node_id := node_id, node_trace := { id := node_id }, output := some [] }

/-- Mutable state threaded through `_execute_levels` (completed-node
bookkeeping stands for the checkpoint's `completed_nodes` map). -/
structure ExecState where
  traceNodes : List NodeTrace := []
  nodeOutputs : List (String × PyDict) := []
  executionError : Option NodeExecutionError := Option.none
  traceError : Option String := Option.none
  completedNodes : List (String × CheckpointNodeData) := []
  hasCheckpoint : Bool := false
  persistCheckpoint : Bool := false

/-- The trace materialized for a node replayed from the checkpoint
(lines 545-553 of `executor.py`; note `skipped` stays `False`). -/
def replayTrace (node_id : String) (data : CheckpointNodeData) : NodeTrace :=
  { id := node_id, output := data.outputs, session_id := data.session_id,
    cost_usd := data.cost_usd, num_turns := data.num_turns }

def mkNodeExecutionError (nodeOf : String → DAGNode) (r : NodeExecResult) (msg : String) :
    NodeExecutionError :=
  { node_id := r.node_id, node_type := (nodeOf r.node_id).type, message := msg,
    cause_type := r.node_trace.error_type, inputs := r.node_trace.input }

/-- The per-result processing of `_execute_levels`: append the trace;
the first error becomes the execution error; successful non-skipped
results publish their output and are marked completed in the
checkpoint. -/
def processResult (nodeOf : String → DAGNode) (st : ExecState) (r : NodeExecResult) : ExecState :=
  let st := { st with traceNodes := st.traceNodes ++ [r.node_trace] }
  match r.error with
  | some msg =>
      if st.executionError.isNone then
        let e := mkNodeExecutionError nodeOf r msg
        { st with executionError := some e, traceError := some e.message }
      else st
  | Option.none =>
      if ¬ r.skipped then
        let st' := { st with nodeOutputs := aset st.nodeOutputs r.node_id (r.output.getD []) }
        let data : CheckpointNodeData :=
          { outputs := r.node_trace.output, completed_at := "",
            session_id := r.node_trace.session_id, cost_usd := r.node_trace.cost_usd,
            num_turns := r.node_trace.num_turns }
        if st'.hasCheckpoint && st'.persistCheckpoint then
          { st' with completedNodes := aset st'.completedNodes r.node_id data }
        else st'
      else st

/-- The level sublist replayed from the checkpoint (`nodes_to_skip`). -/
def levelReplays (st : ExecState) (level : List String) : List String :=
  if st.hasCheckpoint then level.filter (fun n => ahasKey st.completedNodes n) else []

/-- The level sublist actually executed (`nodes_to_execute`). -/
def levelFresh (st : ExecState) (level : List String) : List String :=
  if st.hasCheckpoint then level.filter (fun n => ¬ ahasKey st.completedNodes n) else level

/-- One level of `_execute_levels`: partition into checkpoint replays
and fresh executions, append the replay traces first, run every fresh
node against the level-start output map, then process the results in
task order. -/
def processLevel (evalCond : CondEval) (work : String → PyDict → WorkOutcome)
    (nodeOf : String → DAGNode) (st : ExecState) (level : List String) : ExecState :=
  let nodes_to_skip := levelReplays st level
  let nodes_to_execute := levelFresh st level
  let replays := nodes_to_skip.map (fun n =>
    replayTrace n ((alookup st.completedNodes n).getD { outputs := [], completed_at := "" }))
  let st₁ := { st with traceNodes := st.traceNodes ++ replays }
  let results := nodes_to_execute.map (executeNodeAsync evalCond work nodeOf st.nodeOutputs)
  results.foldl (processResult nodeOf) st₁

/-- The level loop of `_execute_levels`: levels run in order; once an
execution error is recorded, the remaining levels are skipped. -/
def executeLevelsList (evalCond : CondEval) (work : String → PyDict → WorkOutcome)
    (nodeOf : String → DAGNode) : ExecState → List (List String) → ExecState
  | st, [] => st
  | st, level :: rest =>
      if st.executionError.isSome then st
      else executeLevelsList evalCond work nodeOf (processLevel evalCond work nodeOf st level) rest

/-- `dag.nodes[node_id]` (total here; the executor only looks up ids
that are in the DAG). -/
def DAG.nodeOf (dag : DAG) (node_id : String) : DAGNode :=
  (lookupNode dag.nodes node_id).getD { id := node_id, type := "" }

/-- The fallback scan over `reversed(execution_order)` for a project
with no produced output-node outputs. -/
def fallbackOutputs : List String → List (String × PyDict) → PyDict
  | [], _ => []
  | oid :: rest, node_outputs =>
      match alookup node_outputs oid with
      | some o => o
      | Option.none => fallbackOutputs rest node_outputs

/-- The `final_outputs` fold of `run` (lines 631-636): the output
nodes that have an entry in the node-output map, keyed by node id. -/
def outputsProduced (output_nodes : List String) (node_outputs : List (String × PyDict)) :
    PyDict :=
  output_nodes.foldl
    (fun acc oid =>
      match alookup node_outputs oid with
      | some o => acc ++ [(oid, PyVal.dict o)]
      | Option.none => acc)
    []

/-- Final-output assembly of `run` (lines 630-641): keep the produced
output-node outputs keyed by node id; if none, fall back to the last
node in execution order that produced an output. -/
def collectFinalOutputs (output_nodes : List String) (node_outputs : List (String × PyDict))
    (execution_order : List String) : PyDict :=
  let final := outputsProduced output_nodes node_outputs
  if final.isEmpty && ¬ execution_order.isEmpty then
    fallbackOutputs execution_order.reverse node_outputs
  else final

/-- The setup-phase errors `run` can raise. -/
inductive TridentError where
  | noEntrypoint
  | dagError (e : DAGError)
  | checkpointNotFound

/-- The setup phase of `executor.run`: build the DAG (raising for
structural errors), resolve the entrypoint (raising if none), resolve
the resume checkpoint (raising if requested but missing —
`resume_from` is `some Option.none` when the file does not exist),
seed the input nodes, and restore checkpointed outputs. -/
def runSetup (p : Project) (entrypoint : Option String) (inputs : PyDict)
    (resume_from : Option (Option Checkpoint)) (checkpointTracking : Bool) :
    Except TridentError (DAG × ExecState) :=
  match build_dag p with
  | .error e => .error (.dagError e)
  | .ok dag =>
      match (match entrypoint with
             | some e => some e
             | Option.none => p.entrypoints.head?) with
      | Option.none => .error .noEntrypoint
      | some _ep =>
          match resume_from with
          | some Option.none => .error .checkpointNotFound
          | _ =>
            let freshCp : Checkpoint :=
              { run_id := "", project_name := p.name, started_at := "",
                updated_at := "", status := "running",
                pending_nodes := dag.execution_order, inputs := inputs,
                entrypoint := some _ep }
            let checkpoint : Option Checkpoint :=
              match resume_from with
              | some (some cp) => some cp
              | _ => if checkpointTracking then some freshCp else Option.none
            let inputs :=
              match resume_from with
              | some (some cp) => if inputs.isEmpty && ¬ cp.inputs.isEmpty then cp.inputs else inputs
              | _ => inputs
            let seeded :=
              if ¬ inputs.isEmpty then
                p.input_nodes.foldl (fun m nid => aset m nid inputs) []
              else []
            let restored :=
              match resume_from with
              | some (some cp) => cp.completed_nodes.foldl (fun m kv => aset m kv.1 kv.2.outputs) seeded
              | _ => seeded
            let st₀ : ExecState :=
              { nodeOutputs := restored,
                completedNodes := (checkpoint.map (·.completed_nodes)).getD [],
                hasCheckpoint := checkpoint.isSome,
                persistCheckpoint := checkpointTracking }
            .ok (dag, st₀)

/-- `executor.run`: run the setup phase, execute the levels, and
assemble the result.  Node failures never escape: they are captured
in `ExecutionResult.error`. -/
def run (evalCond : CondEval) (work : String → PyDict → WorkOutcome) (p : Project)
    (entrypoint : Option String) (inputs : PyDict)
    (resume_from : Option (Option Checkpoint)) (checkpointTracking : Bool) :
    Except TridentError ExecutionResult :=
  match runSetup p entrypoint inputs resume_from checkpointTracking with
  | .error e => .error e
  | .ok (dag, st₀) =>
      let stF := executeLevelsList evalCond work dag.nodeOf st₀ dag.execution_levels
      let final_outputs := collectFinalOutputs p.output_nodes stF.nodeOutputs dag.execution_order
      .ok { outputs := final_outputs,
            trace := { nodes := stF.traceNodes, error := stF.traceError },
            error := stF.executionError }

/-! ## Checkpoint persistence (`executor.py`, `Checkpoint.save` / `Checkpoint.load`)

`save` writes `json.dumps(data)` for the dict literal of lines 196-210;
`load` reads it back with `data[...]` for the five required fields and
`data.get(...)` defaults for the rest.  The JSON text round trip of a
JSON-serializable dict is the identity, so the file content is modelled
by the `PyVal` tree itself. -/

def optStrToJson : Option String → PyVal
  | Option.none => .none
  | some s => .str s

def optRatToJson : Option Rat → PyVal
  | Option.none => .none
  | some q => .float q

def CheckpointNodeData.toJson (d : CheckpointNodeData) : PyVal :=
  .dict [("outputs", .dict d.outputs), ("completed_at", .str d.completed_at),
         ("session_id", optStrToJson d.session_id), ("cost_usd", optRatToJson d.cost_usd),
         ("num_turns", .int d.num_turns)]

/-- `Checkpoint.save`: the JSON document written to
`checkpoint_dir / f"{run_id}.json"`. -/
def Checkpoint.save (c : Checkpoint) : PyVal :=
  .dict [("run_id", .str c.run_id),
         ("project_name", .str c.project_name),
         ("started_at", .str c.started_at),
         ("updated_at", .str c.updated_at),
         ("status", .str c.status),
         ("completed_nodes", .dict (c.completed_nodes.map (fun kv => (kv.1, kv.2.toJson)))),
         ("pending_nodes", .list (c.pending_nodes.map .str)),
         ("total_cost_usd", .float c.total_cost_usd),
         ("inputs", .dict c.inputs),
         ("entrypoint", optStrToJson c.entrypoint),
         ("branch_states", .dict (c.branch_states.map (fun kv => (kv.1, .int kv.2))))]

def pyToOptStr : PyVal → Option (Option String)
  | .none => some Option.none
  | .str s => some (some s)
  | _ => Option.none

def pyToOptRat : PyVal → Option (Option Rat)
  | .none => some Option.none
  | .float q => some (some q)
  | _ => Option.none

/-- `CheckpointNodeData(**v)` on a decoded JSON object (typed decode;
the claim quantifies over valid checkpoints, whose fields carry the
declared types). -/
def CheckpointNodeData.fromJson (v : PyVal) : Option CheckpointNodeData :=
  match v with
  | .dict d =>
      match dget d "outputs", dget d "completed_at", dget d "session_id",
            dget d "cost_usd", dget d "num_turns" with
      | some (.dict outs), some (.str ca), some sid, some cu, some (.int nt) =>
          match pyToOptStr sid, pyToOptRat cu with
          | some sid', some cu' =>
              some { outputs := outs, completed_at := ca, session_id := sid',
                     cost_usd := cu', num_turns := nt }
          | _, _ => Option.none
      | _, _, _, _, _ => Option.none
  | _ => Option.none

def decodeStrList : List PyVal → Option (List String)
  | [] => some []
  | .str s :: rest => (decodeStrList rest).map (s :: ·)
  | _ => Option.none

def decodeNodeMap : List (String × PyVal) → Option (List (String × CheckpointNodeData))
  | [] => some []
  | (k, v) :: rest =>
      match CheckpointNodeData.fromJson v, decodeNodeMap rest with
      | some d, some ds => some ((k, d) :: ds)
      | _, _ => Option.none

def decodeIntMap : List (String × PyVal) → Option (List (String × Int))
  | [] => some []
  | (k, .int n) :: rest => (decodeIntMap rest).map ((k, n) :: ·)
  | _ => Option.none

/-- `Checkpoint.load`: the five required fields are indexed directly
(`data["..."]`), the rest use `.get` with the constructor defaults. -/
def Checkpoint.load (v : PyVal) : Option Checkpoint :=
  match v with
  | .dict data =>
      match dget data "run_id", dget data "project_name", dget data "started_at",
            dget data "updated_at", dget data "status" with
      | some (.str rid), some (.str pn), some (.str sa), some (.str ua), some (.str st) =>
          let completed? : Option (List (String × CheckpointNodeData)) :=
            match dget data "completed_nodes" with
            | Option.none => some []
            | some (.dict d) => decodeNodeMap d
            | some _ => Option.none
          let pending? : Option (List String) :=
            match dget data "pending_nodes" with
            | Option.none => some []
            | some (.list l) => decodeStrList l
            | some _ => Option.none
          let cost? : Option Rat :=
            match dget data "total_cost_usd" with
            | Option.none => some 0
            | some (.float q) => some q
            | some _ => Option.none
          let inputs? : Option PyDict :=
            match dget data "inputs" with
            | Option.none => some []
            | some (.dict d) => some d
            | some _ => Option.none
          let entry? : Option (Option String) := pyToOptStr ((dget data "entrypoint").getD .none)
          let branch? : Option (List (String × Int)) :=
            match dget data "branch_states" with
            | Option.none => some []
            | some (.dict d) => decodeIntMap d
            | some _ => Option.none
          match completed?, pending?, cost?, inputs?, entry?, branch? with
          | some cn, some pnodes, some cost, some ins, some ep, some bs =>
              some { run_id := rid, project_name := pn, started_at := sa, updated_at := ua,
                     status := st, completed_nodes := cn, pending_nodes := pnodes,
                     total_cost_usd := cost, inputs := ins, entrypoint := ep,
                     branch_states := bs }
          | _, _, _, _, _, _ => Option.none
      | _, _, _, _, _ => Option.none
  | _ => Option.none

theorem pyToOptStr_optStrToJson (s : Option String) : pyToOptStr (optStrToJson s) = some s := by
  cases s <;> rfl

theorem pyToOptRat_optRatToJson (q : Option Rat) : pyToOptRat (optRatToJson q) = some q := by
  cases q <;> rfl

theorem nodeData_fromJson_toJson (d : CheckpointNodeData) :
    CheckpointNodeData.fromJson d.toJson = some d := by
  obtain ⟨outs, ca, sid, cu, nt⟩ := d
  simp only [CheckpointNodeData.toJson, CheckpointNodeData.fromJson, dget]
  simp [pyToOptStr_optStrToJson, pyToOptRat_optRatToJson]

theorem decodeStrList_encode (l : List String) : decodeStrList (l.map .str) = some l := by
  induction l with
  | nil => rfl
  | cons s rest ih => simp [decodeStrList, ih]

theorem decodeNodeMap_encode (l : List (String × CheckpointNodeData)) :
    decodeNodeMap (l.map (fun kv => (kv.1, kv.2.toJson))) = some l := by
  induction l with
  | nil => rfl
  | cons kv rest ih =>
      obtain ⟨k, d⟩ := kv
      simp [decodeNodeMap, nodeData_fromJson_toJson, ih]

theorem decodeIntMap_encode (l : List (String × Int)) :
    decodeIntMap (l.map (fun kv => (kv.1, .int kv.2))) = some l := by
  induction l with
  | nil => rfl
  | cons kv rest ih =>
      obtain ⟨k, n⟩ := kv
      simp [decodeIntMap, ih]

/-- **C7.** For every valid checkpoint (all fields JSON-serializable,
which the typed model guarantees by construction), loading the document
written by `Checkpoint.save` yields a checkpoint equal to the original
in every field: run id, project name, started-at/updated-at, status,
completed nodes with their outputs, completion time, session id, cost
and turn count, pending nodes, total accumulated cost, inputs,
entrypoint, and branch states. -/
theorem claim_C7_checkpoint_roundtrip (c : Checkpoint) :
    Checkpoint.load (Checkpoint.save c) = some c := by
  obtain ⟨rid, pn, sa, ua, st, cn, pnodes, cost, ins, ep, bs⟩ := c
  simp only [Checkpoint.save, Checkpoint.load, dget]
  simp [decodeNodeMap_encode, decodeStrList_encode, decodeIntMap_encode,
    pyToOptStr_optStrToJson]

/-! ## Run manifest (`artifacts.py`, `RunManifest.load`)

`load` wraps its body in `try: ... except (json.JSONDecodeError,
KeyError): return cls()`.  Other exception classes raised inside the
body — `TypeError` from `RunEntry(**data)` on entries with missing or
unexpected keys, `AttributeError` from `data.get` on a non-object top
level — are not caught.  Dataclass construction performs no type
checks, so `RunEntry` fields are modelled as raw values. -/

inductive PyExc where
  | jsonDecodeError
  | keyError
  | typeError
  | attributeError
deriving DecidableEq

/-- The state of `manifest.json` on disk: absent, unparseable, or a
parsed JSON document. -/
inductive ManifestFile where
  | missing
  | invalidJson
  | content (v : PyVal)

structure RunEntry where
  run_id : PyVal
  project_name : PyVal
  entrypoint : PyVal
  status : PyVal
  started_at : PyVal
  ended_at : PyVal := .none
  success : PyVal := .none
  error_summary : PyVal := .none

structure RunManifest where
  version : PyVal := .str "1"
  runs : List RunEntry := []

def runEntryKeys : List String :=
  ["run_id", "project_name", "entrypoint", "status", "started_at",
   "ended_at", "success", "error_summary"]

/-- `RunEntry.from_dict(data)` = `cls(**data)`: requires a mapping whose
keys are exactly accepted parameters, with all default-less parameters
present; otherwise Python raises `TypeError`. -/
def RunEntry.from_dict (v : PyVal) : Except PyExc RunEntry :=
  match v with
  | .dict d =>
      if ¬ d.all (fun kv => kv.1 ∈ runEntryKeys) then .error .typeError
      else
        match dget d "run_id", dget d "project_name", dget d "entrypoint",
              dget d "status", dget d "started_at" with
        | some rid, some pn, some ep, some st, some sa =>
            .ok { run_id := rid, project_name := pn, entrypoint := ep, status := st,
                  started_at := sa, ended_at := (dget d "ended_at").getD .none,
                  success := (dget d "success").getD .none,
                  error_summary := (dget d "error_summary").getD .none }
        | _, _, _, _, _ => .error .typeError
  | _ => .error .typeError

def decodeRuns : List PyVal → Except PyExc (List RunEntry)
  | [] => .ok []
  | v :: rest =>
      match RunEntry.from_dict v with
      | .ok e => (decodeRuns rest).map (e :: ·)
      | .error ex => .error ex

/-- The body of the `try` block of `RunManifest.load`:
`data.get("runs", [])` then `RunEntry.from_dict` per element.  A
non-object top level raises `AttributeError` at `data.get`; a
non-list `runs` value raises `TypeError` when its elements are fed to
`from_dict`. -/
def manifestLoadBody (v : PyVal) : Except PyExc RunManifest :=
  match v with
  | .dict d =>
      match (dget d "runs").getD (.list []) with
      | .list l =>
          (decodeRuns l).map
            (fun runs => { version := (dget d "version").getD (.str "1"), runs := runs })
      | _ => .error .typeError
  | _ => .error .attributeError

/-- `RunManifest.load`: missing file → fresh manifest; body errors of
class `JSONDecodeError` or `KeyError` → fresh manifest; anything else
propagates. -/
def RunManifest.load (file : ManifestFile) : Except PyExc RunManifest :=
  match file with
  | .missing => .ok {}
  | .invalidJson => .ok {}
  | .content v =>
      match manifestLoadBody v with
      | .ok m => .ok m
      | .error .jsonDecodeError => .ok {}
      | .error .keyError => .ok {}
      | .error e => .error e

/-- **C9, counterexample.**  The claim says `RunManifest.load` never
raises and returns a fresh empty manifest for a file that "lacks
expected keys".  The valid-JSON content `{"runs": [{}]}` — one run
entry lacking every required key — makes `RunEntry(**{})` raise
`TypeError`, which the `except (json.JSONDecodeError, KeyError)` clause
does not catch: `load` raises instead of returning a fresh manifest. -/
theorem claim_C9_counterexample :
    RunManifest.load (.content (.dict [("runs", .list [.dict []])])) = .error .typeError := by
  rfl

theorem decodeRuns_error_class (l : List PyVal) :
    ∀ e, decodeRuns l = .error e → e = .typeError := by
  induction l with
  | nil => intro e h; simp [decodeRuns] at h
  | cons v rest ih =>
      intro e h
      unfold decodeRuns at h
      cases hv : RunEntry.from_dict v with
      | ok entry =>
          rw [hv] at h
          cases hr : decodeRuns rest with
          | ok rs => rw [hr] at h; simp [Except.map] at h
          | error ex =>
              rw [hr] at h
              simp only [Except.map] at h
              cases h
              exact ih _ hr
      | error ex =>
          rw [hv] at h
          cases h
          cases v <;> simp only [RunEntry.from_dict] at hv <;>
            first
              | exact (Except.error.inj hv).symm
              | (split at hv <;>
                  first
                    | exact (Except.error.inj hv).symm
                    | exact absurd hv (by simp)
                    | (split at hv <;>
                        first
                          | exact (Except.error.inj hv).symm
                          | exact absurd hv (by simp)))

theorem manifestLoadBody_error_class (v : PyVal) :
    ∀ e, manifestLoadBody v = .error e → e = .typeError ∨ e = .attributeError := by
  intro e h
  cases v with
  | dict d =>
      simp only [manifestLoadBody] at h
      cases hr : (dget d "runs").getD (.list []) with
      | list l =>
          rw [hr] at h
          dsimp only at h
          cases hd : decodeRuns l with
          | ok rs => rw [hd] at h; simp [Except.map] at h
          | error ex =>
              rw [hd] at h
              simp only [Except.map] at h
              cases h
              exact Or.inl (decodeRuns_error_class l _ hd)
      | none => rw [hr] at h; dsimp only at h; exact Or.inl (Except.error.inj h).symm
      | bool b => rw [hr] at h; dsimp only at h; exact Or.inl (Except.error.inj h).symm
      | int n => rw [hr] at h; dsimp only at h; exact Or.inl (Except.error.inj h).symm
      | float q => rw [hr] at h; dsimp only at h; exact Or.inl (Except.error.inj h).symm
      | str s => rw [hr] at h; dsimp only at h; exact Or.inl (Except.error.inj h).symm
      | dict d' => rw [hr] at h; dsimp only at h; exact Or.inl (Except.error.inj h).symm
  | none =>
      simp only [manifestLoadBody] at h
      exact Or.inr (Except.error.inj h).symm
  | bool b =>
      simp only [manifestLoadBody] at h
      exact Or.inr (Except.error.inj h).symm
  | int n =>
      simp only [manifestLoadBody] at h
      exact Or.inr (Except.error.inj h).symm
  | float q =>
      simp only [manifestLoadBody] at h
      exact Or.inr (Except.error.inj h).symm
  | str s =>
      simp only [manifestLoadBody] at h
      exact Or.inr (Except.error.inj h).symm
  | list xs =>
      simp only [manifestLoadBody] at h
      exact Or.inr (Except.error.inj h).symm

/-- **C9, amended.**  `RunManifest.load` returns a fresh empty manifest
(version `"1"`, no runs) for a missing file and for a file whose
content is not valid JSON (and would catch a `KeyError` likewise); but
it is not total on valid JSON: a top-level non-object raises an
uncaught `AttributeError`, and a run entry lacking expected keys (or
carrying unexpected ones) raises an uncaught `TypeError` — the run
index is only silently replaced in the caught cases. -/
theorem claim_C9_amended_load_behaviour :
    (RunManifest.load .missing = .ok { version := .str "1", runs := [] }) ∧
    (RunManifest.load .invalidJson = .ok { version := .str "1", runs := [] }) ∧
    (∀ v e, RunManifest.load (.content v) = .error e →
      (e = .typeError ∨ e = .attributeError)) ∧
    (∀ v m, manifestLoadBody v = .ok m → RunManifest.load (.content v) = .ok m) := by
  refine ⟨rfl, rfl, ?_, ?_⟩
  · intro v e h
    simp only [RunManifest.load] at h
    cases hb : manifestLoadBody v with
    | ok m =>
        rw [hb] at h
        dsimp only at h
        exact absurd h (by simp)
    | error ex =>
        rw [hb] at h
        have hex := manifestLoadBody_error_class v ex hb
        rcases hex with hex | hex <;> subst hex <;> dsimp only at h
        · cases h
          exact Or.inl rfl
        · cases h
          exact Or.inr rfl
  · intro v m h
    simp only [RunManifest.load]
    rw [h]

/-! ## C10: input gathering -/

/-- **C10.** For every node, `_gather_inputs` resolves each inbound edge
mapping by the following rule: edges whose source node produced no
output contribute nothing at all (the gathered inputs are the same as
if the edge were absent); if a mapping's dotted source expression
begins with `output.` and the full path resolves to `None` in the
source output, the value is re-resolved with the `output.` prefix
stripped; and a `None`-valued resolution never overwrites a value
already gathered for the same target variable by an earlier edge (in
particular a non-`None` one). -/
theorem claim_C10_gather_inputs_rules :
    (∀ (pre post : List Edge) (e : Edge) (node_outputs : List (String × PyDict)),
       (alookup node_outputs e.from_node).getD [] = [] →
       gather_inputs (pre ++ e :: post) node_outputs = gather_inputs (pre ++ post) node_outputs) ∧
    (∀ (source_output : PyDict) (expr : String),
       strStartsWithOutputDot expr = true → strContainsDot expr = true →
       get_nested source_output expr = .none →
       resolveMapping source_output expr = get_nested source_output (stripOutputDot expr)) ∧
    (∀ (source_output inputs : PyDict) (m : EdgeMapping),
       (resolveMapping source_output m.source_expr).isNone = true →
       hasKey inputs m.target_var = true →
       gatherStep source_output inputs m = inputs) := by
  refine ⟨?_, ?_, ?_⟩
  · intro pre post e node_outputs hempty
    unfold gather_inputs
    rw [List.foldl_append, List.foldl_append, List.foldl_cons]
    congr 1
    rw [hempty]
    simp
  · intro source_output expr hpre hdot hnone
    unfold resolveMapping
    rw [hnone]
    simp only [PyVal.isNone, hdot, Bool.and_self, if_pos, hpre, ite_true, Bool.true_and]
  · intro source_output inputs m hnone hkey
    unfold gatherStep
    simp only [hnone, hkey]
    simp

def c10_edge : Edge := { id := "e", from_node := "missing", to_node := "n" }

def c10_mapping : EdgeMapping := { target_var := "t", source_expr := "output.x" }

/-- Witness for C10 at concrete inputs: an edge from a source that
produced no output, the expression `output.x` over `{"x": 1}`, and a
`None` resolution against an already-set target. -/
theorem claim_C10_witness :
    gather_inputs [c10_edge] [("s", [("a", PyVal.int 1)])] =
      gather_inputs [] [("s", [("a", PyVal.int 1)])] ∧
    resolveMapping [("x", PyVal.int 1)] "output.x" =
      get_nested [("x", PyVal.int 1)] "x" ∧
    gatherStep [("y", PyVal.int 7)] [("t", PyVal.int 3)] c10_mapping = [("t", PyVal.int 3)] := by
  refine ⟨?_, ?_, ?_⟩
  · exact claim_C10_gather_inputs_rules.1 [] [] c10_edge [("s", [("a", PyVal.int 1)])] (by rfl)
  · exact claim_C10_gather_inputs_rules.2.1 [("x", PyVal.int 1)] "output.x" (by rfl) (by rfl) (by rfl)
  · exact claim_C10_gather_inputs_rules.2.2 [("y", PyVal.int 7)] [("t", PyVal.int 3)] c10_mapping
      (by rfl) (by rfl)

/-! ## Branch subsystem (`executor.py`, `_execute_branch_node`)

The sub-workflow run (a recursive `run(...)` on the resolved project)
is an oracle indexed by the iteration counter; `saved` collects the
`BranchIterationState` values persisted through
`ArtifactManager.save_branch_iteration` (file `iteration_{n}.json`,
written before the failure check), and `subRuns` counts sub-workflow
invocations.  Dry-run and project loading are elided. -/

structure BranchNode where
  id : String
  workflow_path : String := "self"
  condition : Option String := Option.none
  loop_while : Option String := Option.none
  max_iterations : Int := 10

structure SubRunResult where
  outputs : PyDict
  success : Bool
  error : Option String := Option.none

abbrev SubRun := Nat → PyDict → SubRunResult

structure BranchIterationState where
  branch_id : String
  iteration : Nat
  inputs : PyDict
  outputs : PyDict
  success : Bool := true
  error : Option String := Option.none

structure BranchError where
  message : String
  iteration : Int := 0
  max_iterations : Int := 0

/-- `dict.update(other)`. -/
def dictUpdate (acc other : PyDict) : PyDict :=
  other.foldl (fun m kv => dset m kv.1 kv.2) acc

def flattenMulti (raw : PyDict) : List (String × PyVal) → PyDict → PyDict
  | [], acc => acc
  | kv :: rest, acc =>
      match kv.2 with
      | .dict d => flattenMulti raw rest (dictUpdate acc d)
      | _ => raw

/-- Output flattening of `_execute_branch_node` (lines 1106-1123): a
single output node contributes its contents directly; several are
merged field-wise; a non-dict value falls back to the raw map. -/
def flattenOutputs (raw : PyDict) : PyDict :=
  match raw with
  | [kv] =>
      match kv.2 with
      | .dict d => d
      | _ => raw
  | _ => flattenMulti raw raw []

def maxIterMessage (m : Int) : String :=
  "Max iterations (" ++ toString m ++ ") reached"

structure BranchLoopResult where
  saved : List BranchIterationState
  outcome : Except BranchError PyDict
  subRuns : Nat

/-- One-pass-per-fuel-unit form of the `while True:` loop of
`_execute_branch_node` (the fuel argument makes it structural; the
wrapper `branchLoop` supplies provably sufficient fuel). -/
def branchLoopF (evalCond : CondEval) (subRun : SubRun) (branch : BranchNode) :
    Nat → Nat → PyDict → BranchLoopResult
  | 0, _, _ => { saved := [], outcome := .ok [], subRuns := 0 }
  | fuel + 1, iteration, current_inputs =>
      let sub := subRun iteration current_inputs
      let state : BranchIterationState :=
        { branch_id := branch.id, iteration := iteration, inputs := current_inputs,
          outputs := sub.outputs, success := sub.success, error := sub.error }
      if ¬ sub.success then
        { saved := [state],
          outcome := .error
            { message := "Sub-workflow failed at iteration " ++ toString (iteration + 1),
              iteration := iteration, max_iterations := branch.max_iterations },
          subRuns := 1 }
      else
        let flat := flattenOutputs sub.outputs
        match branch.loop_while with
        | Option.none => { saved := [state], outcome := .ok flat, subRuns := 1 }
        | some lw =>
            match evalCond lw (contextOf flat) with
            | .error _ =>
                { saved := [state],
                  outcome := .error
                    { message := "Failed to evaluate loop condition: " ++ lw,
                      iteration := iteration, max_iterations := branch.max_iterations },
                  subRuns := 1 }
            | .ok false => { saved := [state], outcome := .ok flat, subRuns := 1 }
            | .ok true =>
                if (iteration : Int) + 1 ≥ branch.max_iterations then
                  { saved := [state],
                    outcome := .error
                      { message := maxIterMessage branch.max_iterations,
                        iteration := (iteration : Int) + 1,
                        max_iterations := branch.max_iterations },
                    subRuns := 1 }
                else
                  let r := branchLoopF evalCond subRun branch fuel (iteration + 1) flat
                  { saved := state :: r.saved, outcome := r.outcome, subRuns := r.subRuns + 1 }

/-- The loop with enough fuel: each pass either terminates or
increments `iteration`, and the pass with `iteration + 1 ≥
max_iterations` terminates, so `(max_iterations - iteration).toNat + 1`
passes always complete the Python loop. -/
def branchLoop (evalCond : CondEval) (subRun : SubRun) (branch : BranchNode)
    (iteration : Nat) (current_inputs : PyDict) : BranchLoopResult :=
  branchLoopF evalCond subRun branch ((branch.max_iterations - iteration).toNat + 1)
    iteration current_inputs

/-- The loop part of `_execute_branch_node`, from the starting
iteration recorded in the checkpoint's `branch_states` (last completed
iteration `+ 1`, else `0`). -/
def branchNodeLoop (evalCond : CondEval) (subRun : SubRun) (branch : BranchNode)
    (branch_states : List (String × Int)) (gathered : PyDict) : WorkOutcome :=
  let start : Nat :=
    match alookup branch_states branch.id with
    | some k => (k + 1).toNat
    | Option.none => 0
  let r := branchLoop evalCond subRun branch start gathered
  match r.outcome with
  | .ok out => .ok out
  | .error e => .err e.message "BranchError"

/-- `_execute_branch_node` as a work function: evaluate the (truthy)
pre-condition — skip on false, `BranchError` on evaluation failure —
then run the loop. -/
def executeBranchNode (evalCond : CondEval) (subRun : SubRun) (branch : BranchNode)
    (branch_states : List (String × Int)) (gathered : PyDict) : WorkOutcome :=
  match branch.condition with
  | some c =>
      if c = "" then branchNodeLoop evalCond subRun branch branch_states gathered
      else
        match evalCond c (contextOf gathered) with
        | .error _ => .err ("Failed to evaluate branch condition: " ++ c) "BranchError"
        | .ok false => .branchSkip gathered
        | .ok true => branchNodeLoop evalCond subRun branch branch_states gathered
  | Option.none => branchNodeLoop evalCond subRun branch branch_states gathered

theorem branchLoopF_subRuns_le (evalCond : CondEval) (subRun : SubRun) (branch : BranchNode) :
    ∀ (fuel iteration : Nat) (inputs : PyDict), (iteration : Int) < branch.max_iterations →
      (branchLoopF evalCond subRun branch fuel iteration inputs).subRuns ≤
        (branch.max_iterations - iteration).toNat := by
  intro fuel
  induction fuel with
  | zero =>
      intro iteration inputs h
      simp [branchLoopF]
  | succ fuel ih =>
      intro iteration inputs h
      have hge1 : 1 ≤ (branch.max_iterations - (iteration : Int)).toNat := by omega
      simp only [branchLoopF]
      split
      · simpa using hge1
      · split
        · simpa using hge1
        · split
          · simpa using hge1
          · simpa using hge1
          · split
            · simpa using hge1
            · rename_i hguard
              have hlt : ((iteration + 1 : Nat) : Int) < branch.max_iterations := by
                push_cast
                omega
              have hrec := ih (iteration + 1)
                (flattenOutputs (subRun iteration inputs).outputs) hlt
              simp only []
              push_cast at hrec ⊢
              omega

theorem branchLoopF_exact (evalCond : CondEval) (subRun : SubRun) (branch : BranchNode)
    (lw : String)
    (hlw : branch.loop_while = some lw)
    (hcond : ∀ ctx, evalCond lw ctx = .ok true)
    (hsub : ∀ i inp, (subRun i inp).success = true) :
    ∀ (fuel iteration : Nat) (inputs : PyDict),
      (iteration : Int) < branch.max_iterations →
      (branch.max_iterations - iteration).toNat ≤ fuel →
      (branchLoopF evalCond subRun branch fuel iteration inputs).subRuns =
          (branch.max_iterations - iteration).toNat ∧
      (branchLoopF evalCond subRun branch fuel iteration inputs).saved.map (·.iteration) =
          List.range' iteration (branch.max_iterations - iteration).toNat ∧
      (branchLoopF evalCond subRun branch fuel iteration inputs).outcome =
          .error { message := maxIterMessage branch.max_iterations,
                   iteration := branch.max_iterations,
                   max_iterations := branch.max_iterations } := by
  intro fuel
  induction fuel with
  | zero =>
      intro iteration inputs h hf
      omega
  | succ fuel ih =>
      intro iteration inputs h hf
      simp only [branchLoopF]
      split
      · rename_i hfail
        exact absurd (by simp [hsub iteration inputs]) hfail
      · split
        · rename_i hnone
          rw [hlw] at hnone
          exact Option.noConfusion hnone
        · rename_i lw' hsome
          rw [hlw] at hsome
          injection hsome with hlw'
          subst hlw'
          split
          · rename_i u heq
            rw [hcond] at heq
            exact Except.noConfusion heq
          · rename_i heq
            rw [hcond] at heq
            exact absurd (Except.ok.inj heq) (by simp)
          · by_cases hguard : branch.max_iterations ≤ (iteration : Int) + 1
            · rw [if_pos hguard]
              have hone : (branch.max_iterations - (iteration : Int)).toNat = 1 := by omega
              have hM : branch.max_iterations = (iteration : Int) + 1 := by omega
              refine ⟨by simpa using hone.symm, ?_, ?_⟩
              · rw [hone]
                simp [List.range']
              · simp only []
                rw [Except.error.injEq]
                rw [BranchError.mk.injEq]
                exact ⟨rfl, hM.symm, rfl⟩
            · rw [if_neg hguard]
              have hlt : ((iteration + 1 : Nat) : Int) < branch.max_iterations := by
                push_cast
                omega
              have hf' : (branch.max_iterations - ((iteration + 1 : Nat) : Int)).toNat ≤ fuel := by
                push_cast at hf ⊢
                omega
              have hrec := ih (iteration + 1) (flattenOutputs (subRun iteration inputs).outputs) hlt hf'
              have hcnt : (branch.max_iterations - (iteration : Int)).toNat =
                  (branch.max_iterations - ((iteration + 1 : Nat) : Int)).toNat + 1 := by
                push_cast
                omega
              refine ⟨?_, ?_, ?_⟩
              · simp only []
                rw [hrec.1]
                omega
              · simp only [List.map_cons, hcnt, List.range']
                simp [hrec.2.1]
              · simp only []
                exact hrec.2.2

theorem executeNodeAsync_branch_err (evalCond : CondEval) (work : String → PyDict → WorkOutcome)
    (nodeOf : String → DAGNode) (outs : List (String × PyDict)) (n : String) (msg ty : String)
    (hall : ((nodeOf n).incoming_edges.all
      (fun e => should_execute evalCond e ((alookup outs e.from_node).getD []))) = true)
    (htype : (nodeOf n).type = "branch")
    (hw : work n (gather_inputs (nodeOf n).incoming_edges outs) = .err msg ty) :
    executeNodeAsync evalCond work nodeOf outs n =
      { node_id := n,
        node_trace := { id := n, input := gather_inputs (nodeOf n).incoming_edges outs,
                        error := some msg, error_type := some ty },
        error := some msg } := by
  simp only [executeNodeAsync, hall, htype, hw]
  norm_num
  rw [if_neg (by decide), if_neg (by decide)]

def c4_branch : BranchNode := { id := "loop1", loop_while := some "c", max_iterations := 0 }

def c4_subRun : SubRun :=
  fun _ _ => { outputs := [("out1", .dict [("counter", .int 1)])], success := true }

def c4_evalCond : CondEval := fun _ _ => .ok true

/-- **C4, counterexample.**  The claim says the sub-workflow is run at
most `max_iterations` times.  With `max_iterations = 0` (the manifest
accepts any integer; the parser applies no lower bound) the loop body
runs once before the `iteration >= max_iterations` check, so one
sub-workflow run and one persisted iteration file happen despite the
bound of zero. -/
theorem claim_C4_counterexample :
    c4_branch.max_iterations = 0 ∧
    (branchLoop c4_evalCond c4_subRun c4_branch 0 []).subRuns = 1 ∧
    (branchLoop c4_evalCond c4_subRun c4_branch 0 []).saved.length = 1 := by
  exact ⟨rfl, rfl, rfl⟩

/-- **C4, amended.**  For every branch node with a `loop_while`
condition and `max_iterations = M ≥ 1`, executed from iteration 0, the
sub-workflow is run at most `M` times (for any behaviour of the
condition evaluator and of the sub-workflow); and if every sub-workflow
run succeeds and `loop_while` evaluates to true on the flattened
outputs of every completed iteration, exactly `M` iterations are run
and persisted as iteration files `iteration_0 .. iteration_{M-1}`, a
`BranchError` whose message contains (indeed, starts with) `"Max
iterations"` is raised before any further iteration starts, and the
executor records it as the node's execution error, failing the run.
(For `M ≤ 0` exactly one iteration runs before the error; see the
counterexample.) -/
theorem claim_C4_amended_max_iterations (evalCond : CondEval) (subRun : SubRun)
    (branch : BranchNode) (lw : String) (inputs : PyDict)
    (hM : 1 ≤ branch.max_iterations)
    (hlw : branch.loop_while = some lw)
    (hcond : ∀ ctx, evalCond lw ctx = .ok true)
    (hsub : ∀ i inp, (subRun i inp).success = true) :
    (∀ (evalCond' : CondEval) (subRun' : SubRun) (inputs' : PyDict),
        (branchLoop evalCond' subRun' branch 0 inputs').subRuns ≤ branch.max_iterations.toNat) ∧
    (branchLoop evalCond subRun branch 0 inputs).subRuns = branch.max_iterations.toNat ∧
    ((branchLoop evalCond subRun branch 0 inputs).saved.map (·.iteration) =
        List.range' 0 branch.max_iterations.toNat) ∧
    (∃ e, (branchLoop evalCond subRun branch 0 inputs).outcome = .error e ∧
        e.message = maxIterMessage branch.max_iterations ∧
        e.message = "Max iterations" ++ (" (" ++ toString branch.max_iterations ++ ") reached")) ∧
    (∀ (nodeOf : String → DAGNode) (st : ExecState) (outs : List (String × PyDict)) (n : String),
        (nodeOf n).type = "branch" →
        branch.condition = Option.none →
        ((nodeOf n).incoming_edges.all
          (fun e => should_execute evalCond e ((alookup outs e.from_node).getD []))) = true →
        st.executionError = Option.none →
        ∃ err, (processResult nodeOf st
            (executeNodeAsync evalCond (fun _ g => executeBranchNode evalCond subRun branch [] g)
              nodeOf outs n)).executionError = some err ∧
          err.message = maxIterMessage branch.max_iterations) := by
  have h0 : ((0 : Nat) : Int) < branch.max_iterations := by
    push_cast
    omega
  have hfuel : ∀ (it : Nat), (branch.max_iterations - (it : Int)).toNat ≤
      (branch.max_iterations - (it : Int)).toNat + 1 := fun _ => Nat.le_succ _
  have hsub0 : (branch.max_iterations - ((0 : Nat) : Int)).toNat = branch.max_iterations.toNat := by
    push_cast
    omega
  have hexact := branchLoopF_exact evalCond subRun branch lw hlw hcond hsub
    ((branch.max_iterations - ((0 : Nat) : Int)).toNat + 1) 0 inputs h0 (hfuel 0)
  refine ⟨?_, ?_, ?_, ?_, ?_⟩
  · intro evalCond' subRun' inputs'
    have := branchLoopF_subRuns_le evalCond' subRun' branch
      ((branch.max_iterations - ((0 : Nat) : Int)).toNat + 1) 0 inputs' h0
    unfold branchLoop
    omega
  · unfold branchLoop
    rw [hexact.1, hsub0]
  · unfold branchLoop
    rw [hexact.2.1, hsub0]
  · refine ⟨⟨maxIterMessage branch.max_iterations, branch.max_iterations,
        branch.max_iterations⟩, ?_, rfl, ?_⟩
    · unfold branchLoop
      exact hexact.2.2
    · unfold maxIterMessage
      rw [← String.append_assoc, ← String.append_assoc]
      rfl
  · intro nodeOf st outs n htype hnocond hall herr
    have hwork : executeBranchNode evalCond subRun branch [] (gather_inputs (nodeOf n).incoming_edges outs) =
        .err (maxIterMessage branch.max_iterations) "BranchError" := by
      unfold executeBranchNode
      rw [hnocond]
      unfold branchNodeLoop
      simp only [alookup]
      have hex := branchLoopF_exact evalCond subRun branch lw hlw hcond hsub
        ((branch.max_iterations - ((0 : Nat) : Int)).toNat + 1) 0
        (gather_inputs (nodeOf n).incoming_edges outs) h0 (hfuel 0)
      unfold branchLoop
      rw [hex.2.2]
    have hres := executeNodeAsync_branch_err evalCond
      (fun _ g => executeBranchNode evalCond subRun branch [] g) nodeOf outs n
      (maxIterMessage branch.max_iterations) "BranchError" hall htype hwork
    rw [hres]
    simp only [processResult, herr]
    exact ⟨_, rfl, rfl⟩

def c4w_branch : BranchNode := { id := "loop1", loop_while := some "c", max_iterations := 3 }

/-- Witness for the amended C4 at a concrete branch (`max_iterations =
3`, always-true loop condition, always-succeeding sub-workflow):
exactly 3 sub-runs, iteration files 0, 1, 2. -/
theorem claim_C4_witness :
    (branchLoop c4_evalCond c4_subRun c4w_branch 0 []).subRuns = 3 ∧
    (branchLoop c4_evalCond c4_subRun c4w_branch 0 []).saved.map (·.iteration) = [0, 1, 2] := by
  have h := claim_C4_amended_max_iterations c4_evalCond c4_subRun c4w_branch "c" []
    (by decide) rfl (fun _ => rfl) (fun _ _ => rfl)
  refine ⟨?_, ?_⟩
  · rw [h.2.1]; rfl
  · rw [h.2.2.1]; rfl

/-! ### C5: skip gating and the condition context -/

/-- The condition context as the SPEC describes it (not the code): the
name `output` bound to the whole source output, with the source fields
exposed underneath.  Under first-binding lookup the `output` binding
always wins here, whereas the dict display in `_should_execute` lets a
source field literally named `output` shadow it. -/
def specContextOf (source_output : PyDict) : PyDict :=
  ("output", PyVal.dict source_output) :: source_output

theorem dget_fold_not_mem : ∀ (l : List (String × PyVal)) (k : String),
    (∀ p ∈ l, p.1 ≠ k) →
    ∀ d : PyDict, dget (l.foldl (fun acc kv => dset acc kv.1 kv.2) d) k = dget d k := by
  intro l
  induction l with
  | nil => intro k _ d; rfl
  | cons hd tl ih =>
      intro k h d
      simp only [List.foldl_cons]
      rw [ih k (fun p hp => h p (List.mem_cons_of_mem _ hp))]
      exact dget_dset_other d hd.1 k hd.2 (h hd (List.mem_cons_self _ _))

theorem dget_fold_mem : ∀ (l : List (String × PyVal)) (k : String) (v : PyVal),
    (l.map Prod.fst).Nodup → dget l k = some v →
    ∀ d : PyDict, dget (l.foldl (fun acc kv => dset acc kv.1 kv.2) d) k = some v := by
  intro l
  induction l with
  | nil => intro k v _ h d; simp [dget] at h
  | cons hd tl ih =>
      intro k v hnd h d
      obtain ⟨k₁, v₁⟩ := hd
      simp only [List.map_cons, List.nodup_cons] at hnd
      obtain ⟨hk₁, hnd'⟩ := hnd
      simp only [List.foldl_cons]
      by_cases hek : k₁ = k
      · subst hek
        simp only [dget, if_pos rfl] at h
        rw [dget_fold_not_mem tl k₁
          (fun p hp he => hk₁ (by rw [← he]; exact List.mem_map_of_mem Prod.fst hp))
          (dset d k₁ v₁)]
        rw [dget_dset_self]
        exact h
      · simp only [dget, if_neg hek] at h
        exact ih k v hnd' h (dset d k₁ v₁)

theorem not_key_of_hasKey_false : ∀ (l : PyDict) (k : String),
    hasKey l k = false → ∀ p ∈ l, p.1 ≠ k := by
  intro l
  induction l with
  | nil => intro k _ p hp; cases hp
  | cons hd tl ih =>
      intro k h p hp
      simp only [hasKey, Bool.or_eq_false_iff, decide_eq_false_iff_not] at h
      cases hp with
      | head => exact h.1
      | tail _ hp' => exact ih k h.2 p hp'

theorem no_key_of_dget_none : ∀ (l : PyDict) (k : String),
    dget l k = Option.none → ∀ p ∈ l, p.1 ≠ k := by
  intro l
  induction l with
  | nil => intro k _ p hp; cases hp
  | cons hd tl ih =>
      intro k h p hp
      obtain ⟨k₁, v₁⟩ := hd
      simp only [dget] at h
      by_cases hek : k₁ = k
      · rw [if_pos hek] at h; cases h
      · rw [if_neg hek] at h
        cases hp with
        | head => exact hek
        | tail _ hp' => exact ih k h p hp'

/-- When no source field is itself named `output`, the code's context
agrees with the spec's description. -/
theorem contextOf_spec (src : PyDict) (hnd : (src.map Prod.fst).Nodup)
    (hout : hasKey src "output" = false) :
    dget (contextOf src) "output" = some (PyVal.dict src) ∧
    ∀ k, k ≠ "output" → dget (contextOf src) k = dget src k := by
  have hfold : contextOf src =
      src.foldl (fun acc kv => dset acc kv.1 kv.2) [("output", PyVal.dict src)] := rfl
  constructor
  · rw [hfold, dget_fold_not_mem src "output" (not_key_of_hasKey_false src "output" hout)]
    rfl
  · intro k hk
    cases hv : dget src k with
    | none =>
        rw [hfold, dget_fold_not_mem src k (no_key_of_dget_none src k hv)]
        simp only [dget]
        rw [if_neg (fun he => hk he.symm)]
    | some v =>
        rw [hfold, dget_fold_mem src k v hnd hv]

/-- `_should_execute` returns `False` exactly when the (non-empty)
condition evaluates to false or its evaluation raises. -/
theorem should_execute_eq_false_iff (evalCond : CondEval) (edge : Edge) (src : PyDict) :
    should_execute evalCond edge src = false ↔
      ∃ c, edge.condition = some c ∧ c ≠ "" ∧
        (evalCond c (contextOf src) = .ok false ∨ evalCond c (contextOf src) = .error ()) := by
  unfold should_execute
  cases hc : edge.condition with
  | none => simp
  | some c =>
      dsimp only
      by_cases he : c = ""
      · subst he; simp
      · rw [if_neg he]
        cases hr : evalCond c (contextOf src) with
        | ok b =>
            cases b
            · simp only [true_iff]
              exact ⟨c, rfl, he, Or.inl hr⟩
            · constructor
              · intro h1; cases h1
              · intro hx
                obtain ⟨c', hc', _, hor⟩ := hx
                cases hc'
                cases hor with
                | inl h1 => rw [hr] at h1; simp at h1
                | inr h1 => rw [hr] at h1; simp at h1
        | error u =>
            cases u
            simp only [true_iff]
            exact ⟨c, rfl, he, Or.inr hr⟩

/-- If some inbound gate fails, `_execute_node_async` returns the
skipped result at once. -/
theorem executeNodeAsync_gateSkip (evalCond : CondEval)
    (work : String → PyDict → WorkOutcome) (nodeOf : String → DAGNode)
    (outs : List (String × PyDict)) (n : String)
    (h : ((nodeOf n).incoming_edges.all
          (fun e => should_execute evalCond e ((alookup outs e.from_node).getD []))) = false) :
    executeNodeAsync evalCond work nodeOf outs n =
      { node_id := n, node_trace := { id := n, skipped := true }, skipped := true } := by
  simp only [executeNodeAsync, h]
  rfl

/-- The result is marked skipped exactly when the inbound gate check
fails. -/
theorem executeNodeAsync_skipped (evalCond : CondEval)
    (work : String → PyDict → WorkOutcome) (nodeOf : String → DAGNode)
    (outs : List (String × PyDict)) (n : String) :
    (executeNodeAsync evalCond work nodeOf outs n).skipped =
      !((nodeOf n).incoming_edges.all
          (fun e => should_execute evalCond e ((alookup outs e.from_node).getD []))) := by
  cases h : (nodeOf n).incoming_edges.all
      (fun e => should_execute evalCond e ((alookup outs e.from_node).getD [])) with
  | false => rw [executeNodeAsync_gateSkip evalCond work nodeOf outs n h]; rfl
  | true =>
      simp only [executeNodeAsync, h, not_true, Bool.not_true]
      rw [if_neg (by simp)]
      split
      · rfl
      · split
        · rfl
        · split
          · split <;> rfl
          · rfl

theorem processResult_skip (nodeOf : String → DAGNode) (st : ExecState) (n : String) :
    processResult nodeOf st
        { node_id := n, node_trace := { id := n, skipped := true }, skipped := true } =
      { st with traceNodes := st.traceNodes ++ [{ id := n, skipped := true }] } := rfl

/-- C5 counterexample: when the source output itself has a field named
`output` (here `{"output": 5}`), the dict display
`{"output": source_output, **source_output}` lets the field shadow the
binding, so the condition context does NOT bind `output` to the source
output as the claim states. -/
theorem claim_C5_counterexample :
    dget (contextOf [("output", PyVal.int 5)]) "output" = some (PyVal.int 5) ∧
    dget (specContextOf [("output", PyVal.int 5)]) "output"
      = some (PyVal.dict [("output", PyVal.int 5)]) ∧
    dget (contextOf [("output", PyVal.int 5)]) "output"
      ≠ dget (specContextOf [("output", PyVal.int 5)]) "output" := by
  refine ⟨rfl, rfl, ?_⟩
  intro h
  have h2 : some (PyVal.int 5) = some (PyVal.dict [("output", PyVal.int 5)]) := h
  injection h2 with h3
  exact PyVal.noConfusion h3

/-- C5 (amended): a node's dispatch result is marked skipped iff some
inbound edge carries a non-empty condition that evaluates to false or
raises (against the context built from that edge's source output, the
empty dict when the source produced none); a skipped result has a
skipped trace, no output, and publishes nothing to the node-output
map; and the context binds `output` to the source output with its
fields at top level PROVIDED no source field is itself named `output`
(the claim's unconditional context description fails, see the
counterexample). -/
theorem claim_C5_amended_skip_and_context (evalCond : CondEval)
    (work : String → PyDict → WorkOutcome) (nodeOf : String → DAGNode)
    (outs : List (String × PyDict)) (n : String) (st : ExecState) :
    ((executeNodeAsync evalCond work nodeOf outs n).skipped = true ↔
      ∃ e ∈ (nodeOf n).incoming_edges, ∃ c, e.condition = some c ∧ c ≠ "" ∧
        (evalCond c (contextOf ((alookup outs e.from_node).getD [])) = .ok false ∨
         evalCond c (contextOf ((alookup outs e.from_node).getD [])) = .error ())) ∧
    ((executeNodeAsync evalCond work nodeOf outs n).skipped = true →
      (executeNodeAsync evalCond work nodeOf outs n).node_trace.skipped = true ∧
      (executeNodeAsync evalCond work nodeOf outs n).output = Option.none ∧
      (processResult nodeOf st (executeNodeAsync evalCond work nodeOf outs n)).nodeOutputs
        = st.nodeOutputs) ∧
    (∀ src : PyDict, (src.map Prod.fst).Nodup → hasKey src "output" = false →
      dget (contextOf src) "output" = some (PyVal.dict src) ∧
      ∀ k, k ≠ "output" → dget (contextOf src) k = dget src k) := by
  refine ⟨?_, ?_, fun src hnd hout => contextOf_spec src hnd hout⟩
  · rw [executeNodeAsync_skipped]
    simp only [Bool.not_eq_true', List.all_eq_false, Bool.not_eq_true]
    exact exists_congr fun e => and_congr_right fun _ =>
      should_execute_eq_false_iff evalCond e ((alookup outs e.from_node).getD [])
  · intro hskip
    rw [executeNodeAsync_skipped, Bool.not_eq_true'] at hskip
    rw [executeNodeAsync_gateSkip evalCond work nodeOf outs n hskip]
    exact ⟨rfl, rfl, rfl⟩

def c5_edge : Edge :=
  { id := "e1", from_node := "a", to_node := "n", condition := some "cond" }

def c5_nodeOf : String → DAGNode :=
  fun nid => { id := nid, type := "prompt", incoming_edges := [c5_edge] }

def c5_evalCond : CondEval := fun _ _ => .ok false

def c5_work : String → PyDict → WorkOutcome := fun _ g => .ok g

/-- Witness for the amended C5 at a concrete node whose single inbound
edge condition evaluates to false: the node is skipped, produces no
output, and publishes nothing. -/
theorem claim_C5_witness :
    (executeNodeAsync c5_evalCond c5_work c5_nodeOf [] "n").skipped = true ∧
    (executeNodeAsync c5_evalCond c5_work c5_nodeOf [] "n").output = Option.none ∧
    (processResult c5_nodeOf {} (executeNodeAsync c5_evalCond c5_work c5_nodeOf [] "n")).nodeOutputs
      = [] := by
  have h := claim_C5_amended_skip_and_context c5_evalCond c5_work c5_nodeOf [] "n" {}
  have hskip : (executeNodeAsync c5_evalCond c5_work c5_nodeOf [] "n").skipped = true :=
    h.1.mpr ⟨c5_edge, List.mem_singleton_self c5_edge, "cond", rfl, by decide, Or.inl rfl⟩
  exact ⟨hskip, (h.2.1 hskip).2.1, (h.2.1 hskip).2.2⟩

/-! ### C2 witness data and C8: per-level trace order -/

def c2w_edge : Edge := { id := "e1", from_node := "a", to_node := "b" }

def c2w_p : Project :=
  { name := "w", input_nodes := ["a"], output_nodes := ["b"], edges := [c2w_edge] }

def c2w_dag : DAG :=
  { nodes := [("a", { id := "a", type := "input", outgoing_edges := [c2w_edge] }),
              ("b", { id := "b", type := "output", incoming_edges := [c2w_edge] })],
    execution_order := ["a", "b"],
    execution_levels := [["a"], ["b"]] }

/-- Witness for C2 at a two-node project `a → b`: the edge hypothesis
holds, `build_dag` succeeds, and the levels flatten to the order which
enumerates both nodes. -/
theorem claim_C2_witness :
    (hasNodeKey (buildNodesList c2w_p) "a" = true ∧
      hasNodeKey (buildNodesList c2w_p) "b" = true) ∧
    c2w_dag.execution_levels.flatten = c2w_dag.execution_order ∧
    c2w_dag.execution_order.length = c2w_dag.nodes.length := by
  have hedges : ∀ e ∈ c2w_p.edges,
      hasNodeKey (buildNodesList c2w_p) e.from_node = true ∧
      hasNodeKey (buildNodesList c2w_p) e.to_node = true := by decide
  have h := (claim_C2_build_dag_levels_or_cycle c2w_p hedges).1 c2w_dag rfl
  exact ⟨⟨rfl, rfl⟩, h.1, h.2.1⟩

theorem processResult_traceNodes (nodeOf : String → DAGNode) (st : ExecState)
    (r : NodeExecResult) :
    (processResult nodeOf st r).traceNodes = st.traceNodes ++ [r.node_trace] := by
  unfold processResult
  split <;> (dsimp only; (first | rfl | (split <;> (first | rfl | (split <;> rfl)))))

theorem foldl_processResult_traceNodes (nodeOf : String → DAGNode) :
    ∀ (rs : List NodeExecResult) (st : ExecState),
      (rs.foldl (processResult nodeOf) st).traceNodes
        = st.traceNodes ++ rs.map (fun r => r.node_trace) := by
  intro rs
  induction rs with
  | nil => intro st; simp
  | cons r rest ih =>
      intro st
      simp only [List.foldl_cons, List.map_cons]
      rw [ih, processResult_traceNodes]
      simp [List.append_assoc]

theorem executeNodeAsync_trace_id (evalCond : CondEval)
    (work : String → PyDict → WorkOutcome) (nodeOf : String → DAGNode)
    (outs : List (String × PyDict)) (n : String) :
    (executeNodeAsync evalCond work nodeOf outs n).node_trace.id = n := by
  unfold executeNodeAsync
  dsimp only
  split
  · rfl
  · split
    · rfl
    · split
      · rfl
      · split
        · split <;> rfl
        · rfl

theorem kahnLoopF_levels_sorted (nodes : List (String × DAGNode)) :
    ∀ (fuel : Nat) (deg : String → Int) (current : List String),
      ∀ lv ∈ (kahnLoopF nodes fuel deg current).1,
        List.Sorted (fun a b : String => a ≤ b) lv := by
  intro fuel
  induction fuel with
  | zero => intro deg current lv hlv; cases hlv
  | succ f ih =>
      intro deg current lv hlv
      rw [kahnLoopF] at hlv
      by_cases hc : current = []
      · rw [if_pos hc] at hlv; cases hlv
      · rw [if_neg hc] at hlv
        dsimp only at hlv
        cases hlv with
        | head => exact List.sorted_insertionSort _ _
        | tail _ h => exact ih _ _ lv h

theorem build_dag_levels_sorted (p : Project) (dag : DAG) (h : build_dag p = .ok dag) :
    ∀ lv ∈ dag.execution_levels, List.Sorted (fun a b : String => a ≤ b) lv := by
  unfold build_dag at h
  cases hw : wireEdges (buildNodesList p) p.edges with
  | error e => rw [hw] at h; exact absurd h (by simp)
  | ok nodes' =>
      rw [hw] at h
      dsimp only at h
      split at h
      · exact absurd h (by simp)
      · rw [Except.ok.injEq] at h
        subst h
        intro lv hlv
        exact kahnLoopF_levels_sorted nodes' _ _ _ lv hlv

def c8_st : ExecState :=
  { hasCheckpoint := true, completedNodes := [("b", { outputs := [], completed_at := "" })] }

def c8_nodeOf : String → DAGNode := fun nid => { id := nid, type := "input" }

def c8_evalCond : CondEval := fun _ _ => .ok true

def c8_work : String → PyDict → WorkOutcome := fun _ g => .ok g

/-- C8 counterexample: resuming from a checkpoint in which only `b` of
the sorted level `["a", "b"]` is completed, the replayed trace for `b`
is appended before the fresh trace for `a`, so the level's trace block
`["b", "a"]` is NOT in sorted order by node id, contradicting the
claim's guarantee for levels mixing replayed and fresh nodes. -/
theorem claim_C8_counterexample :
    (processLevel c8_evalCond c8_work c8_nodeOf c8_st ["a", "b"]).traceNodes.map NodeTrace.id
      = ["b", "a"] ∧
    List.Sorted (fun a b : String => a ≤ b) ["a", "b"] ∧
    ¬ List.Sorted (fun a b : String => a ≤ b)
        ((processLevel c8_evalCond c8_work c8_nodeOf c8_st ["a", "b"]).traceNodes.map
          NodeTrace.id) := by
  have h1 : (processLevel c8_evalCond c8_work c8_nodeOf c8_st ["a", "b"]).traceNodes.map
      NodeTrace.id = ["b", "a"] := rfl
  refine ⟨h1, ?_, ?_⟩
  · simp [List.sorted_cons]
    decide
  · rw [h1]
    intro hs
    have hab := (List.sorted_cons.mp hs).1 "a" (by simp)
    exact absurd hab (by simp; decide)

theorem map_trace_id_replay (st : ExecState) : ∀ l : List String,
    (l.map (fun n =>
      replayTrace n ((alookup st.completedNodes n).getD { outputs := [], completed_at := "" }))).map
        NodeTrace.id = l := by
  intro l
  induction l with
  | nil => rfl
  | cons a t ih =>
      simp only [List.map_cons]
      rw [ih]
      rfl

theorem map_trace_id_exec (evalCond : CondEval) (work : String → PyDict → WorkOutcome)
    (nodeOf : String → DAGNode) (outs : List (String × PyDict)) : ∀ l : List String,
    (l.map (fun n => (executeNodeAsync evalCond work nodeOf outs n).node_trace)).map
      NodeTrace.id = l := by
  intro l
  induction l with
  | nil => rfl
  | cons a t ih =>
      simp only [List.map_cons]
      rw [ih, executeNodeAsync_trace_id evalCond work nodeOf outs a]

theorem processLevel_traceNodes (evalCond : CondEval)
    (work : String → PyDict → WorkOutcome) (nodeOf : String → DAGNode)
    (st : ExecState) (level : List String) :
    (processLevel evalCond work nodeOf st level).traceNodes
      = st.traceNodes
        ++ (levelReplays st level).map (fun n =>
            replayTrace n ((alookup st.completedNodes n).getD { outputs := [], completed_at := "" }))
        ++ (levelFresh st level).map (fun n =>
            (executeNodeAsync evalCond work nodeOf st.nodeOutputs n).node_trace) := by
  unfold processLevel
  dsimp only
  rw [foldl_processResult_traceNodes]
  simp [List.map_map, List.append_assoc, Function.comp]

theorem processLevel_trace_ids (evalCond : CondEval)
    (work : String → PyDict → WorkOutcome) (nodeOf : String → DAGNode)
    (st : ExecState) (level : List String) :
    (processLevel evalCond work nodeOf st level).traceNodes.map NodeTrace.id
      = st.traceNodes.map NodeTrace.id ++ levelReplays st level ++ levelFresh st level := by
  rw [processLevel_traceNodes]
  simp only [List.map_append]
  rw [map_trace_id_replay st (levelReplays st level),
      map_trace_id_exec evalCond work nodeOf st.nodeOutputs (levelFresh st level)]

/-- C8 (amended): a level's trace entries are appended to the trace
only after the whole level is processed, as one block consisting of
the checkpoint replays (in level order) followed by the fresh
executions (in level order); the block's ids are `levelReplays ++
levelFresh`; each of the two sublists is in sorted order whenever the
level is sorted — which `build_dag` guarantees — and without a
checkpoint the block is exactly the level, hence sorted.  (The claim's
stronger statement, that the whole mixed block is sorted, is refuted
by the counterexample.) -/
theorem claim_C8_amended_trace_order :
    (∀ (evalCond : CondEval) (work : String → PyDict → WorkOutcome)
        (nodeOf : String → DAGNode) (st : ExecState) (level : List String),
      (processLevel evalCond work nodeOf st level).traceNodes
        = st.traceNodes
          ++ (levelReplays st level).map (fun n =>
              replayTrace n ((alookup st.completedNodes n).getD { outputs := [], completed_at := "" }))
          ++ (levelFresh st level).map (fun n =>
              (executeNodeAsync evalCond work nodeOf st.nodeOutputs n).node_trace) ∧
      ((processLevel evalCond work nodeOf st level).traceNodes.map NodeTrace.id
        = st.traceNodes.map NodeTrace.id ++ levelReplays st level ++ levelFresh st level) ∧
      (List.Sorted (fun a b : String => a ≤ b) level →
        List.Sorted (fun a b : String => a ≤ b) (levelReplays st level) ∧
        List.Sorted (fun a b : String => a ≤ b) (levelFresh st level)) ∧
      (st.hasCheckpoint = false →
        levelReplays st level = [] ∧ levelFresh st level = level)) ∧
    (∀ (p : Project) (dag : DAG), build_dag p = .ok dag →
      ∀ lv ∈ dag.execution_levels, List.Sorted (fun a b : String => a ≤ b) lv) := by
  refine ⟨?_, build_dag_levels_sorted⟩
  intro evalCond work nodeOf st level
  refine ⟨processLevel_traceNodes evalCond work nodeOf st level,
    processLevel_trace_ids evalCond work nodeOf st level, ?_, ?_⟩
  · intro hs
    constructor
    · unfold levelReplays
      cases hcp : st.hasCheckpoint
      · simp
      · simp only [if_pos rfl]
        exact hs.filter _
    · unfold levelFresh
      cases hcp : st.hasCheckpoint
      · simpa using hs
      · simp only [if_pos rfl]
        exact hs.filter _
  · intro hcp
    unfold levelReplays levelFresh
    rw [hcp]
    exact ⟨rfl, rfl⟩

/-- Witness for the amended C8 at the counterexample's resumed state
and level, plus a sorted-levels instance from a concrete `build_dag`
run: the block ids are the replays followed by the fresh nodes, each
sublist sorted. -/
theorem claim_C8_witness :
    (processLevel c8_evalCond c8_work c8_nodeOf c8_st ["a", "b"]).traceNodes.map NodeTrace.id
      = c8_st.traceNodes.map NodeTrace.id ++ levelReplays c8_st ["a", "b"]
        ++ levelFresh c8_st ["a", "b"] ∧
    List.Sorted (fun a b : String => a ≤ b) (levelReplays c8_st ["a", "b"]) ∧
    List.Sorted (fun a b : String => a ≤ b) (levelFresh c8_st ["a", "b"]) ∧
    List.Sorted (fun a b : String => a ≤ b) ["a"] := by
  have h := claim_C8_amended_trace_order.1 c8_evalCond c8_work c8_nodeOf c8_st ["a", "b"]
  have hs : List.Sorted (fun a b : String => a ≤ b) ["a", "b"] := by
    simp [List.sorted_cons]
    decide
  have hdag := claim_C8_amended_trace_order.2 c2w_p c2w_dag rfl ["a"]
    (List.mem_cons_self _ _)
  exact ⟨h.2.1, (h.2.2.1 hs).1, (h.2.2.1 hs).2, hdag⟩

/-! ### Shared error-propagation lemmas for `_execute_levels` -/

theorem processResult_error_preserved (nodeOf : String → DAGNode) (st : ExecState)
    (r : NodeExecResult) (e : NodeExecutionError) (h : st.executionError = some e) :
    (processResult nodeOf st r).executionError = some e := by
  unfold processResult
  dsimp only
  split
  · split
    · rename_i hn
      have hn2 : st.executionError.isNone = true := hn
      rw [h] at hn2
      exact absurd hn2 (by simp)
    · exact h
  · split
    · split <;> exact h
    · exact h

theorem processResult_error_new (nodeOf : String → DAGNode) (st : ExecState)
    (r : NodeExecResult) (msg : String) (hok : st.executionError = Option.none)
    (herr : r.error = some msg) :
    (processResult nodeOf st r).executionError
      = some (mkNodeExecutionError nodeOf r msg) := by
  unfold processResult
  dsimp only
  rw [herr]
  dsimp only
  rw [show ({ st with traceNodes := st.traceNodes ++ [r.node_trace] } :
      ExecState).executionError = Option.none from hok]
  rfl

theorem processResult_error_none (nodeOf : String → DAGNode) (st : ExecState)
    (r : NodeExecResult) (hok : st.executionError = Option.none)
    (herr : r.error = Option.none) :
    (processResult nodeOf st r).executionError = Option.none := by
  unfold processResult
  dsimp only
  rw [herr]
  dsimp only
  split
  · split <;> exact hok
  · exact hok

theorem foldl_processResult_error_preserved (nodeOf : String → DAGNode) :
    ∀ (rs : List NodeExecResult) (st : ExecState) (e : NodeExecutionError),
      st.executionError = some e →
      ((rs.foldl (processResult nodeOf) st).executionError = some e) := by
  intro rs
  induction rs with
  | nil => intro st e h; exact h
  | cons r rest ih =>
      intro st e h
      exact ih _ e (processResult_error_preserved nodeOf st r e h)

/-- The first failing result (in processing order) becomes the
execution error; if none fails, no error is recorded. -/
theorem foldl_processResult_firstError (nodeOf : String → DAGNode) :
    ∀ (rs : List NodeExecResult) (st : ExecState),
      st.executionError = Option.none →
      ((rs.find? (fun r => r.error.isSome) = Option.none ∧
          (rs.foldl (processResult nodeOf) st).executionError = Option.none) ∨
       (∃ r msg, rs.find? (fun r => r.error.isSome) = some r ∧ r.error = some msg ∧
          (rs.foldl (processResult nodeOf) st).executionError
            = some (mkNodeExecutionError nodeOf r msg))) := by
  intro rs
  induction rs with
  | nil => intro st h; exact Or.inl ⟨rfl, h⟩
  | cons r rest ih =>
      intro st h
      cases hr : r.error with
      | some msg =>
          refine Or.inr ⟨r, msg, ?_, hr, ?_⟩
          · rw [List.find?_cons_of_pos]
            rw [hr]; rfl
          · exact foldl_processResult_error_preserved nodeOf rest _ _
              (processResult_error_new nodeOf st r msg h hr)
      | none =>
          have hstep := processResult_error_none nodeOf st r h hr
          rcases ih (processResult nodeOf st r) hstep with ⟨hf, he⟩ | ⟨r', msg, hf, hrm, he⟩
          · refine Or.inl ⟨?_, he⟩
            rw [List.find?_cons_of_neg, hf]
            simp [hr]
          · refine Or.inr ⟨r', msg, ?_, hrm, he⟩
            rw [List.find?_cons_of_neg, hf]
            simp [hr]

/-- Once an execution error is recorded, the remaining levels are not
processed at all. -/
theorem executeLevelsList_stuck (evalCond : CondEval)
    (work : String → PyDict → WorkOutcome) (nodeOf : String → DAGNode) :
    ∀ (ls : List (List String)) (st : ExecState),
      st.executionError.isSome →
      executeLevelsList evalCond work nodeOf st ls = st := by
  intro ls
  cases ls with
  | nil => intro st _; rfl
  | cons lv rest =>
      intro st h
      unfold executeLevelsList
      rw [if_pos h]

/-! ### C3: level-complete, fail-fast execution -/

theorem processLevel_firstError (evalCond : CondEval)
    (work : String → PyDict → WorkOutcome) (nodeOf : String → DAGNode)
    (st : ExecState) (lv : List String) (hok : st.executionError = Option.none) :
    ((((levelFresh st lv).map (executeNodeAsync evalCond work nodeOf st.nodeOutputs)).find?
        (fun r => r.error.isSome) = Option.none ∧
      (processLevel evalCond work nodeOf st lv).executionError = Option.none) ∨
     (∃ r msg,
        ((levelFresh st lv).map (executeNodeAsync evalCond work nodeOf st.nodeOutputs)).find?
          (fun r => r.error.isSome) = some r ∧
        r.error = some msg ∧
        (processLevel evalCond work nodeOf st lv).executionError
          = some (mkNodeExecutionError nodeOf r msg))) := by
  unfold processLevel
  dsimp only
  exact foldl_processResult_firstError nodeOf
    ((levelFresh st lv).map (executeNodeAsync evalCond work nodeOf st.nodeOutputs)) _ hok

/-- **C3.** If the state reaches a level error-free and some node of
that level fails (its dispatched result carries an error), then: every
node of the level still runs and records its trace (the level's block
of trace ids is the full level — replays then fresh executions); the
FIRST failing result in the level's stable processing order becomes
the recorded `NodeExecutionError`; and no later level is processed at
all — the state after the remaining levels is exactly the state after
the failing level. -/
theorem claim_C3_level_complete_fail_fast (evalCond : CondEval)
    (work : String → PyDict → WorkOutcome) (nodeOf : String → DAGNode)
    (st : ExecState) (lv : List String) (rest : List (List String))
    (hok : st.executionError = Option.none)
    (hfail : ((levelFresh st lv).map
        (executeNodeAsync evalCond work nodeOf st.nodeOutputs)).find?
        (fun r => r.error.isSome) ≠ Option.none) :
    ((processLevel evalCond work nodeOf st lv).traceNodes.map NodeTrace.id
      = st.traceNodes.map NodeTrace.id ++ levelReplays st lv ++ levelFresh st lv) ∧
    (∃ r msg,
      ((levelFresh st lv).map (executeNodeAsync evalCond work nodeOf st.nodeOutputs)).find?
        (fun r => r.error.isSome) = some r ∧
      r.error = some msg ∧
      (processLevel evalCond work nodeOf st lv).executionError
        = some (mkNodeExecutionError nodeOf r msg)) ∧
    executeLevelsList evalCond work nodeOf (processLevel evalCond work nodeOf st lv) rest
      = processLevel evalCond work nodeOf st lv := by
  rcases processLevel_firstError evalCond work nodeOf st lv hok with ⟨hf, _⟩ | ⟨r, msg, hf, hrm, he⟩
  · exact absurd hf hfail
  · refine ⟨processLevel_trace_ids evalCond work nodeOf st lv, ⟨r, msg, hf, hrm, he⟩, ?_⟩
    exact executeLevelsList_stuck evalCond work nodeOf rest _ (by rw [he]; rfl)

def c3_nodeOf : String → DAGNode := fun nid => { id := nid, type := "tool" }

def c3_evalCond : CondEval := fun _ _ => .ok true

def c3_work : String → PyDict → WorkOutcome :=
  fun n g => if n = "x" then .err "boom" "RuntimeError" else .ok g

def c3_fail_result : NodeExecResult :=
  { node_id := "x",
    node_trace := { id := "x", error := some "boom", error_type := some "RuntimeError" },
    error := some "boom" }

def c3_err : NodeExecutionError :=
  { node_id := "x", node_type := "tool", message := "boom",
    cause_type := some "RuntimeError", inputs := [] }

/-- Witness for C3 at a concrete level `["x", "y"]` whose first node
fails: both traces are recorded, `x`'s failure is the recorded error,
and the following level `["z"]` is not processed. -/
theorem claim_C3_witness :
    ((processLevel c3_evalCond c3_work c3_nodeOf {} ["x", "y"]).traceNodes.map NodeTrace.id
      = ["x", "y"]) ∧
    (processLevel c3_evalCond c3_work c3_nodeOf {} ["x", "y"]).executionError = some c3_err ∧
    executeLevelsList c3_evalCond c3_work c3_nodeOf
        (processLevel c3_evalCond c3_work c3_nodeOf {} ["x", "y"]) [["z"]]
      = processLevel c3_evalCond c3_work c3_nodeOf {} ["x", "y"] := by
  have hns : ((levelFresh ({} : ExecState) ["x", "y"]).map
      (executeNodeAsync c3_evalCond c3_work c3_nodeOf ({} : ExecState).nodeOutputs)).find?
      (fun r => r.error.isSome) ≠ Option.none := by
    intro h
    have h2 : (Option.none : Option NodeExecResult).isSome = true := by
      rw [← h]; rfl
    cases h2
  have h := claim_C3_level_complete_fail_fast c3_evalCond c3_work c3_nodeOf {} ["x", "y"]
    [["z"]] rfl hns
  refine ⟨?_, ?_, h.2.2⟩
  · rw [h.1]; rfl
  · obtain ⟨r, msg, hf, hrm, he⟩ := h.2.1
    have h0 : ((levelFresh ({} : ExecState) ["x", "y"]).map
        (executeNodeAsync c3_evalCond c3_work c3_nodeOf ({} : ExecState).nodeOutputs)).find?
        (fun r => r.error.isSome) = some c3_fail_result := rfl
    have hr : r = c3_fail_result := (Option.some.inj (h0.symm.trans hf)).symm
    subst hr
    have hm : msg = "boom" := (Option.some.inj hrm).symm
    subst hm
    rw [he]
    rfl

/-! ### C1: run returns results; only setup errors are raised -/

theorem build_dag_error_shape (p : Project)
    (hedges : ∀ e ∈ p.edges,
      hasNodeKey (buildNodesList p) e.from_node = true ∧
      hasNodeKey (buildNodesList p) e.to_node = true) :
    ∀ err, build_dag p = .error err →
      ∃ remaining, err = DAGError.cycle remaining ∧ remaining ≠ [] := by
  intro err h
  unfold build_dag at h
  cases hw : wireEdges (buildNodesList p) p.edges with
  | error e =>
      obtain ⟨nodes', hok⟩ := wireEdges_ok p.edges _ hedges
      rw [hok] at hw
      exact absurd hw (by simp)
  | ok nodes' =>
      rw [hw] at h
      dsimp only at h
      have hknd : (nodes'.map Prod.fst).Nodup := by
        rw [wireEdges_keys p.edges _ _ hw]
        exact buildNodesList_keys_nodup p
      by_cases hlen :
          (kahnLoop nodes' (initialDeg nodes') (initialLevel nodes')).2.length ≠ nodes'.length
      · rw [if_pos hlen] at h
        rw [Except.error.injEq] at h
        have hos := kahn_order_nodup_subset nodes' hknd
        have hlt : (kahnLoop nodes' (initialDeg nodes') (initialLevel nodes')).2.length <
            (nodes'.map Prod.fst).length := by
          have hsp : List.Subperm (kahnLoop nodes' (initialDeg nodes') (initialLevel nodes')).2
              (nodes'.map Prod.fst) :=
            List.subperm_of_subset hos.1 hos.2
          have := hsp.length_le
          rw [List.length_map] at *
          omega
        have hmiss : ∃ v ∈ nodes'.map Prod.fst,
            ¬ v ∈ (kahnLoop nodes' (initialDeg nodes') (initialLevel nodes')).2 := by
          by_contra hall
          push_neg at hall
          have hsp2 : List.Subperm (nodes'.map Prod.fst)
              (kahnLoop nodes' (initialDeg nodes') (initialLevel nodes')).2 :=
            List.subperm_of_subset hknd hall
          have := hsp2.length_le
          omega
        obtain ⟨v, hvk, hvo⟩ := hmiss
        subst h
        refine ⟨_, rfl, ?_⟩
        have hvf : v ∈ (nodes'.map Prod.fst).filter
            (fun v => ¬ v ∈ (kahnLoop nodes' (initialDeg nodes') (initialLevel nodes')).2) := by
          rw [List.mem_filter]
          exact ⟨hvk, by simpa using hvo⟩
        intro hnil
        rw [hnil] at hvf
        simp at hvf
      · rw [if_neg hlen] at h
        exact absurd h (by simp)

theorem runSetup_ok_shape (p : Project) (ep : Option String) (inputs : PyDict)
    (rf : Option (Option Checkpoint)) (ct : Bool) (dag : DAG) (st₀ : ExecState)
    (h : runSetup p ep inputs rf ct = .ok (dag, st₀)) :
    build_dag p = .ok dag ∧ st₀.executionError = Option.none := by
  unfold runSetup at h
  cases hb : build_dag p with
  | error e => rw [hb] at h; exact absurd h (by simp)
  | ok dag' =>
      rw [hb] at h
      dsimp only at h
      cases he : (match ep with | some e => some e | Option.none => p.entrypoints.head?) with
      | none => rw [he] at h; exact absurd h (by simp)
      | some _ep =>
          rw [he] at h
          dsimp only at h
          rcases rf with _ | cp
          · dsimp only at h
            rw [Except.ok.injEq, Prod.mk.injEq] at h
            exact ⟨by rw [← h.1], by rw [← h.2]⟩
          · rcases cp with _ | cp
            · dsimp only at h
              exact absurd h (by simp)
            · dsimp only at h
              rw [Except.ok.injEq, Prod.mk.injEq] at h
              exact ⟨by rw [← h.1], by rw [← h.2]⟩

theorem runSetup_error_shape (p : Project) (ep : Option String) (inputs : PyDict)
    (rf : Option (Option Checkpoint)) (ct : Bool) (err : TridentError)
    (h : runSetup p ep inputs rf ct = .error err) :
    (∃ e, build_dag p = .error e ∧ err = .dagError e) ∨
    (err = .noEntrypoint ∧ ep = Option.none ∧ p.entrypoints.head? = Option.none) ∨
    (err = .checkpointNotFound ∧ rf = some Option.none) := by
  unfold runSetup at h
  cases hb : build_dag p with
  | error e =>
      rw [hb] at h
      rw [Except.error.injEq] at h
      exact Or.inl ⟨e, rfl, h.symm⟩
  | ok dag' =>
      rw [hb] at h
      dsimp only at h
      cases hep : ep with
      | some e0 =>
          rw [hep] at h
          dsimp only at h
          rcases rf with _ | cp
          · exact absurd h (by simp)
          · rcases cp with _ | cp
            · dsimp only at h
              rw [Except.error.injEq] at h
              exact Or.inr (Or.inr ⟨h.symm, rfl⟩)
            · exact absurd h (by simp)
      | none =>
          rw [hep] at h
          dsimp only at h
          cases he : p.entrypoints.head? with
          | none =>
              rw [he] at h
              dsimp only at h
              rw [Except.error.injEq] at h
              exact Or.inr (Or.inl ⟨h.symm, rfl, rfl⟩)
          | some e1 =>
              rw [he] at h
              dsimp only at h
              rcases rf with _ | cp
              · exact absurd h (by simp)
              · rcases cp with _ | cp
                · dsimp only at h
                  rw [Except.error.injEq] at h
                  exact Or.inr (Or.inr ⟨h.symm, rfl⟩)
                · exact absurd h (by simp)

theorem executeNodeAsync_node_id (evalCond : CondEval)
    (work : String → PyDict → WorkOutcome) (nodeOf : String → DAGNode)
    (outs : List (String × PyDict)) (n : String) :
    (executeNodeAsync evalCond work nodeOf outs n).node_id = n := by
  unfold executeNodeAsync
  dsimp only
  split
  · rfl
  · split
    · rfl
    · split
      · rfl
      · split
        · split <;> rfl
        · rfl

/-- An execution error that was produced by wrapping some dispatched
node result (the only way `_execute_levels` creates one). -/
def errFromDispatch (evalCond : CondEval) (work : String → PyDict → WorkOutcome)
    (nodeOf : String → DAGNode) (e : NodeExecutionError) : Prop :=
  ∃ outs n msg, (executeNodeAsync evalCond work nodeOf outs n).error = some msg ∧
    e = mkNodeExecutionError nodeOf (executeNodeAsync evalCond work nodeOf outs n) msg

theorem foldl_processResult_errFrom (evalCond : CondEval)
    (work : String → PyDict → WorkOutcome) (nodeOf : String → DAGNode) :
    ∀ (ns : List String) (outs : List (String × PyDict)) (st : ExecState),
      (st.executionError = Option.none ∨
        ∃ e, st.executionError = some e ∧ errFromDispatch evalCond work nodeOf e) →
      (((ns.map (executeNodeAsync evalCond work nodeOf outs)).foldl
          (processResult nodeOf) st).executionError = Option.none ∨
        ∃ e, ((ns.map (executeNodeAsync evalCond work nodeOf outs)).foldl
            (processResult nodeOf) st).executionError = some e ∧
          errFromDispatch evalCond work nodeOf e) := by
  intro ns
  induction ns with
  | nil => intro outs st h; exact h
  | cons n rest ih =>
      intro outs st h
      simp only [List.map_cons, List.foldl_cons]
      refine ih outs (processResult nodeOf st (executeNodeAsync evalCond work nodeOf outs n)) ?_
      rcases h with hok | ⟨e, he, hfrom⟩
      · cases hr : (executeNodeAsync evalCond work nodeOf outs n).error with
        | none => exact Or.inl (processResult_error_none nodeOf st _ hok hr)
        | some msg =>
            exact Or.inr ⟨mkNodeExecutionError nodeOf
                (executeNodeAsync evalCond work nodeOf outs n) msg,
              processResult_error_new nodeOf st _ msg hok hr,
              outs, n, msg, hr, rfl⟩
      · exact Or.inr ⟨e, processResult_error_preserved nodeOf st _ e he, hfrom⟩

theorem processLevel_errFrom (evalCond : CondEval)
    (work : String → PyDict → WorkOutcome) (nodeOf : String → DAGNode)
    (st : ExecState) (lv : List String)
    (h : st.executionError = Option.none ∨
      ∃ e, st.executionError = some e ∧ errFromDispatch evalCond work nodeOf e) :
    (processLevel evalCond work nodeOf st lv).executionError = Option.none ∨
      ∃ e, (processLevel evalCond work nodeOf st lv).executionError = some e ∧
        errFromDispatch evalCond work nodeOf e := by
  unfold processLevel
  dsimp only
  exact foldl_processResult_errFrom evalCond work nodeOf (levelFresh st lv) st.nodeOutputs
    { st with traceNodes := st.traceNodes ++ (levelReplays st lv).map (fun n =>
        replayTrace n ((alookup st.completedNodes n).getD { outputs := [], completed_at := "" })) }
    h

theorem executeLevelsList_errFrom (evalCond : CondEval)
    (work : String → PyDict → WorkOutcome) (nodeOf : String → DAGNode) :
    ∀ (ls : List (List String)) (st : ExecState),
      (st.executionError = Option.none ∨
        ∃ e, st.executionError = some e ∧ errFromDispatch evalCond work nodeOf e) →
      ((executeLevelsList evalCond work nodeOf st ls).executionError = Option.none ∨
        ∃ e, (executeLevelsList evalCond work nodeOf st ls).executionError = some e ∧
          errFromDispatch evalCond work nodeOf e) := by
  intro ls
  induction ls with
  | nil => intro st h; exact h
  | cons lv rest ih =>
      intro st h
      unfold executeLevelsList
      by_cases hs : st.executionError.isSome
      · rw [if_pos hs]; exact h
      · rw [if_neg hs]
        exact ih _ (processLevel_errFrom evalCond work nodeOf st lv h)

/-- **C1.** For every project whose edges reference declared nodes
(the invariant `load_project` establishes), `run` raises only
setup-phase errors — a missing entrypoint (none passed and none
declared), a dependency cycle (with its nonempty node set), or a
requested resume checkpoint that does not exist; any returned result
carries either no error or a `NodeExecutionError` wrapping a failed
dispatch: the failing node's id, its node type, the failure message,
the cause's exception type, and the node's resolved inputs. -/
theorem claim_C1_run_error_discipline (evalCond : CondEval)
    (work : String → PyDict → WorkOutcome) (p : Project) (entrypoint : Option String)
    (inputs : PyDict) (resume_from : Option (Option Checkpoint)) (ct : Bool)
    (hedges : ∀ e ∈ p.edges,
      hasNodeKey (buildNodesList p) e.from_node = true ∧
      hasNodeKey (buildNodesList p) e.to_node = true) :
    (∀ err, run evalCond work p entrypoint inputs resume_from ct = .error err →
      (err = .noEntrypoint ∧ entrypoint = Option.none ∧ p.entrypoints.head? = Option.none) ∨
      (∃ remaining, err = .dagError (.cycle remaining) ∧ remaining ≠ []) ∨
      (err = .checkpointNotFound ∧ resume_from = some Option.none)) ∧
    (∀ result, run evalCond work p entrypoint inputs resume_from ct = .ok result →
      result.error = Option.none ∨
      ∃ dag outs n msg, build_dag p = .ok dag ∧
        (executeNodeAsync evalCond work dag.nodeOf outs n).error = some msg ∧
        result.error = some (mkNodeExecutionError dag.nodeOf
          (executeNodeAsync evalCond work dag.nodeOf outs n) msg) ∧
        (mkNodeExecutionError dag.nodeOf
          (executeNodeAsync evalCond work dag.nodeOf outs n) msg).node_id = n ∧
        (mkNodeExecutionError dag.nodeOf
          (executeNodeAsync evalCond work dag.nodeOf outs n) msg).node_type
          = (dag.nodeOf n).type ∧
        (mkNodeExecutionError dag.nodeOf
          (executeNodeAsync evalCond work dag.nodeOf outs n) msg).message = msg ∧
        (mkNodeExecutionError dag.nodeOf
          (executeNodeAsync evalCond work dag.nodeOf outs n) msg).cause_type
          = (executeNodeAsync evalCond work dag.nodeOf outs n).node_trace.error_type ∧
        (mkNodeExecutionError dag.nodeOf
          (executeNodeAsync evalCond work dag.nodeOf outs n) msg).inputs
          = (executeNodeAsync evalCond work dag.nodeOf outs n).node_trace.input) := by
  constructor
  · intro err h
    unfold run at h
    cases hs : runSetup p entrypoint inputs resume_from ct with
    | ok pr => rw [hs] at h; exact absurd h (by simp)
    | error e =>
        rw [hs] at h
        rw [Except.error.injEq] at h
        subst h
        rcases runSetup_error_shape p entrypoint inputs resume_from ct _ hs with
          ⟨eb, hb, hde⟩ | hne | hcp
        · obtain ⟨remaining, hcyc, hne'⟩ := build_dag_error_shape p hedges eb hb
          refine Or.inr (Or.inl ⟨remaining, ?_, hne'⟩)
          rw [hde, hcyc]
        · exact Or.inl hne
        · exact Or.inr (Or.inr hcp)
  · intro result h
    unfold run at h
    cases hs : runSetup p entrypoint inputs resume_from ct with
    | error e => rw [hs] at h; exact absurd h (by simp)
    | ok pr =>
        obtain ⟨dag, st₀⟩ := pr
        rw [hs] at h
        dsimp only at h
        rw [Except.ok.injEq] at h
        obtain ⟨hbd, hst₀⟩ := runSetup_ok_shape p entrypoint inputs resume_from ct dag st₀ hs
        have hinv := executeLevelsList_errFrom evalCond work dag.nodeOf
          dag.execution_levels st₀ (Or.inl hst₀)
        rcases hinv with hok | ⟨e, he, outs, n, msg, herr, hee⟩
        · left
          rw [← h]
          exact hok
        · right
          refine ⟨dag, outs, n, msg, hbd, herr, ?_, ?_, ?_, rfl, rfl, rfl⟩
          · rw [← h]
            exact he.trans (congrArg some hee)
          · exact executeNodeAsync_node_id evalCond work dag.nodeOf outs n
          · simp only [mkNodeExecutionError]
            rw [executeNodeAsync_node_id evalCond work dag.nodeOf outs n]

def c1cyc_e1 : Edge := { id := "e1", from_node := "a", to_node := "b" }

def c1cyc_e2 : Edge := { id := "e2", from_node := "b", to_node := "a" }

def c1cyc_p : Project :=
  { name := "cyc", prompts := ["a", "b"], edges := [c1cyc_e1, c1cyc_e2] }

def c1_p : Project := { name := "f", prompts := ["x"] }

def c1_trace : NodeTrace :=
  { id := "x", error := some "boom", error_type := some "RuntimeError" }

def c1_err : NodeExecutionError :=
  { node_id := "x", node_type := "prompt", message := "boom",
    cause_type := some "RuntimeError", inputs := [] }

def c1_result : ExecutionResult :=
  { outputs := [], trace := { nodes := [c1_trace], error := some "boom" },
    error := some c1_err }

/-- Witness for C1: a two-node cycle makes `run` raise the nonempty
cycle error, and a run whose single prompt node fails still returns a
result, with the failure recorded in `result.error`. -/
theorem claim_C1_witness :
    run c3_evalCond c3_work c1cyc_p Option.none [] Option.none false
      = .error (.dagError (.cycle ["a", "b"])) ∧
    (["a", "b"] : List String) ≠ [] ∧
    run c3_evalCond c3_work c1_p (some "x") [] Option.none false = .ok c1_result ∧
    c1_result.error.isSome = true := by
  have hedges1 : ∀ e ∈ c1cyc_p.edges,
      hasNodeKey (buildNodesList c1cyc_p) e.from_node = true ∧
      hasNodeKey (buildNodesList c1cyc_p) e.to_node = true := by decide
  have hedges2 : ∀ e ∈ c1_p.edges,
      hasNodeKey (buildNodesList c1_p) e.from_node = true ∧
      hasNodeKey (buildNodesList c1_p) e.to_node = true := by decide
  have hrunc : run c3_evalCond c3_work c1cyc_p Option.none [] Option.none false
      = .error (.dagError (.cycle ["a", "b"])) := rfl
  have hA := (claim_C1_run_error_discipline c3_evalCond c3_work c1cyc_p Option.none []
    Option.none false hedges1).1 _ hrunc
  have hrunf : run c3_evalCond c3_work c1_p (some "x") [] Option.none false
      = .ok c1_result := rfl
  have hB := (claim_C1_run_error_discipline c3_evalCond c3_work c1_p (some "x") []
    Option.none false hedges2).2 c1_result hrunf
  refine ⟨hrunc, ?_, hrunf, ?_⟩
  · rcases hA with ⟨h1, _⟩ | ⟨remaining, hcyc, hne⟩ | ⟨h1, _⟩
    · exact TridentError.noConfusion h1
    · have h2 : (["a", "b"] : List String) = remaining := by
        injection hcyc with h3
        injection h3
      rw [h2]
      exact hne
    · exact TridentError.noConfusion h1
  · rcases hB with h1 | ⟨dag, outs, n, msg, _, _, he, _⟩
    · exact Option.noConfusion h1
    · rw [he]
      rfl

/-! ### C6: final outputs of a successful run -/

theorem outputsProduced_foldl (node_outputs : List (String × PyDict)) :
    ∀ (output_nodes : List String) (acc : PyDict),
      output_nodes.foldl
        (fun acc oid =>
          match alookup node_outputs oid with
          | some o => acc ++ [(oid, PyVal.dict o)]
          | Option.none => acc) acc
      = acc ++ output_nodes.filterMap (fun oid =>
          (alookup node_outputs oid).map (fun o => (oid, PyVal.dict o))) := by
  intro l
  induction l with
  | nil => intro acc; simp
  | cons oid rest ih =>
      intro acc
      simp only [List.foldl_cons, List.filterMap_cons]
      cases h : alookup node_outputs oid with
      | none =>
          dsimp only
          exact ih acc
      | some o =>
          dsimp only
          rw [ih]
          simp [List.append_assoc]

theorem outputsProduced_filterMap (node_outputs : List (String × PyDict))
    (output_nodes : List String) :
    outputsProduced output_nodes node_outputs
      = output_nodes.filterMap (fun oid =>
          (alookup node_outputs oid).map (fun o => (oid, PyVal.dict o))) := by
  unfold outputsProduced
  rw [outputsProduced_foldl]
  simp

theorem outputsProduced_keys (node_outputs : List (String × PyDict)) :
    ∀ output_nodes : List String,
      (outputsProduced output_nodes node_outputs).map Prod.fst
        = output_nodes.filter (fun oid => ahasKey node_outputs oid) := by
  intro l
  rw [outputsProduced_filterMap]
  induction l with
  | nil => rfl
  | cons oid rest ih =>
      simp only [List.filterMap_cons, List.filter_cons]
      cases h : alookup node_outputs oid with
      | none =>
          rw [show ahasKey node_outputs oid = false from by unfold ahasKey; rw [h]; rfl]
          simp only [Bool.false_eq_true, if_false]
          exact ih
      | some o =>
          rw [show ahasKey node_outputs oid = true from by unfold ahasKey; rw [h]; rfl]
          rw [if_pos rfl, Option.map_some']
          dsimp only
          simp only [List.map_cons]
          rw [ih]

theorem outputsProduced_mem (node_outputs : List (String × PyDict))
    (output_nodes : List String) (oid : String) (o : PyDict)
    (hmem : oid ∈ output_nodes) (h : alookup node_outputs oid = some o) :
    (oid, PyVal.dict o) ∈ outputsProduced output_nodes node_outputs := by
  rw [outputsProduced_filterMap]
  rw [List.mem_filterMap]
  exact ⟨oid, hmem, by rw [h]; rfl⟩

theorem collectFinalOutputs_nonempty (output_nodes : List String)
    (node_outputs : List (String × PyDict)) (order : List String)
    (h : outputsProduced output_nodes node_outputs ≠ []) :
    collectFinalOutputs output_nodes node_outputs order
      = outputsProduced output_nodes node_outputs := by
  unfold collectFinalOutputs
  dsimp only
  split
  · rename_i hc
    rw [Bool.and_eq_true] at hc
    exfalso
    cases hf : outputsProduced output_nodes node_outputs with
    | nil => exact h hf
    | cons a t =>
        have h1 := hc.1
        rw [hf] at h1
        cases h1
  · rfl

theorem collectFinalOutputs_fallback (output_nodes : List String)
    (node_outputs : List (String × PyDict)) (order : List String)
    (h1 : outputsProduced output_nodes node_outputs = []) (h2 : order ≠ []) :
    collectFinalOutputs output_nodes node_outputs order
      = fallbackOutputs order.reverse node_outputs := by
  unfold collectFinalOutputs
  dsimp only
  split
  · rfl
  · rename_i hc
    exfalso
    apply hc
    rw [Bool.and_eq_true, h1]
    refine ⟨rfl, ?_⟩
    cases ho : order with
    | nil => exact absurd ho h2
    | cons a t => simp

def c6_p : Project := { name := "c6", input_nodes := ["a"], entrypoints := ["a"] }

def c6_trace : NodeTrace := { id := "a", output := [("x", PyVal.int 1)] }

def c6_result : ExecutionResult :=
  { outputs := [("x", PyVal.int 1)], trace := { nodes := [c6_trace] } }

/-- C6 counterexample: a successful run of a project with NO output
nodes still returns nonempty outputs — the fallback scan hands back
the last produced node output, keyed by that output's own fields — so
the outputs' keys are not the project's output-node keys. -/
theorem claim_C6_counterexample :
    run c3_evalCond c5_work c6_p Option.none [("x", PyVal.int 1)] Option.none false
      = .ok c6_result ∧
    c6_result.success = true ∧
    c6_p.output_nodes = [] ∧
    c6_result.outputs = [("x", PyVal.int 1)] ∧
    c6_result.outputs.map Prod.fst ≠ c6_p.output_nodes := by
  refine ⟨rfl, rfl, rfl, rfl, ?_⟩
  intro h
  exact List.noConfusion h

/-- C6 (amended): the outputs of any returned result are the
`collectFinalOutputs` of the final node-output map; the produced
output map lists exactly the output nodes that HAVE a final output
(in declaration order) with that node's final output as value; when at
least one output node produced an output these are the result's
outputs verbatim, and otherwise (e.g. no output nodes, or all of them
skipped) the result falls back to the last produced output of the
whole execution order — which is how the claim's \"exactly the output
node keys\" fails, see the counterexample. -/
theorem claim_C6_amended_final_outputs :
    (∀ (evalCond : CondEval) (work : String → PyDict → WorkOutcome) (p : Project)
        (ep : Option String) (inputs : PyDict) (rf : Option (Option Checkpoint)) (ct : Bool)
        (result : ExecutionResult),
      run evalCond work p ep inputs rf ct = .ok result →
      ∃ dag st₀, runSetup p ep inputs rf ct = .ok (dag, st₀) ∧
        result.outputs = collectFinalOutputs p.output_nodes
          (executeLevelsList evalCond work dag.nodeOf st₀ dag.execution_levels).nodeOutputs
          dag.execution_order) ∧
    (∀ (output_nodes : List String) (node_outputs : List (String × PyDict)),
      (outputsProduced output_nodes node_outputs).map Prod.fst
        = output_nodes.filter (fun oid => ahasKey node_outputs oid) ∧
      ∀ oid o, oid ∈ output_nodes → alookup node_outputs oid = some o →
        (oid, PyVal.dict o) ∈ outputsProduced output_nodes node_outputs) ∧
    (∀ (output_nodes : List String) (node_outputs : List (String × PyDict))
        (order : List String),
      outputsProduced output_nodes node_outputs ≠ [] →
      collectFinalOutputs output_nodes node_outputs order
        = outputsProduced output_nodes node_outputs) ∧
    (∀ (output_nodes : List String) (node_outputs : List (String × PyDict))
        (order : List String),
      outputsProduced output_nodes node_outputs = [] → order ≠ [] →
      collectFinalOutputs output_nodes node_outputs order
        = fallbackOutputs order.reverse node_outputs) := by
  refine ⟨?_, ?_, collectFinalOutputs_nonempty, collectFinalOutputs_fallback⟩
  · intro evalCond work p ep inputs rf ct result h
    unfold run at h
    cases hs : runSetup p ep inputs rf ct with
    | error e => rw [hs] at h; exact absurd h (by simp)
    | ok pr =>
        obtain ⟨dag, st₀⟩ := pr
        rw [hs] at h
        dsimp only at h
        rw [Except.ok.injEq] at h
        refine ⟨dag, st₀, rfl, ?_⟩
        rw [← h]
  · intro output_nodes node_outputs
    exact ⟨outputsProduced_keys node_outputs output_nodes,
      fun oid o hmem hl => outputsProduced_mem node_outputs output_nodes oid o hmem hl⟩

/-- Witness for the amended C6 at concrete data: one produced output
node gives exactly its key with its final output; an empty produced
map with nonempty order takes the fallback. -/
theorem claim_C6_witness :
    (outputsProduced ["o"] [("o", [("y", PyVal.int 2)])]).map Prod.fst
      = (["o"] : List String).filter (fun oid => ahasKey [("o", [("y", PyVal.int 2)])] oid) ∧
    collectFinalOutputs ["o"] [("o", [("y", PyVal.int 2)])] ["o"]
      = outputsProduced ["o"] [("o", [("y", PyVal.int 2)])] ∧
    collectFinalOutputs ["o"] [] ["a"] = fallbackOutputs (["a"] : List String).reverse [] := by
  have h := claim_C6_amended_final_outputs
  refine ⟨(h.2.1 ["o"] [("o", [("y", PyVal.int 2)])]).1, ?_, ?_⟩
  · exact h.2.2.1 ["o"] [("o", [("y", PyVal.int 2)])] ["o"]
      (fun hx => List.noConfusion hx)
  · exact h.2.2.2 ["o"] [] ["a"] rfl (fun hx => List.noConfusion hx)

/-- Witness for the amended C9: a well-formed manifest file loads to
its decoded entries, and a missing file loads to the fresh empty
manifest. -/
theorem claim_C9_witness :
    RunManifest.load (.content (PyVal.dict [("version", PyVal.str "2"), ("runs", PyVal.list [])]))
      = .ok { version := PyVal.str "2", runs := [] } ∧
    RunManifest.load .missing = .ok { version := PyVal.str "1", runs := [] } := by
  have h := claim_C9_amended_load_behaviour
  exact ⟨h.2.2.2 _ _ rfl, h.1⟩
